import Mathlib

/-!
Verification of the polygon point-location core of the dictionary subsystem
(the polygon dictionary and its two location strategies), together with the
configuration-validation entry point and the polygon equality function.

Geometry is embedded over exact rational coordinates.  The external
computational-geometry primitives (containment, area, normalization,
equality) are not part of the repository source and are modelled from the
specification, as are the internals of the spatial grid, which the source
only calls through its interface.
-/

namespace PolygonDict

/-- A planar point with exact rational coordinates.  The source stores
points as pairs of floating-point coordinates; the claims under study only
involve exactly representable values, for which rational arithmetic agrees
with the source. -/
structure Point where
  x : ℚ
  y : ℚ
deriving DecidableEq, Repr

/-- A ring is an ordered sequence of points, implicitly closed. -/
abbrev Ring := List Point

/-- A simple polygon: one outer ring plus zero or more hole rings. -/
structure SimplePolygon where
  outer : Ring
  holes : List Ring
deriving DecidableEq, Repr

/-- A multi-polygon is an ordered sequence of simple polygons, semantically
a union.  The polygon set stores every entry in this uniform shape. -/
abbrev MultiPolygon := List SimplePolygon

/-- The cyclic edge list of a ring: consecutive points paired up, with the
implicit closing edge from the last point back to the first. -/
def ringEdges (r : Ring) : List (Point × Point) :=
  r.zip (r.drop 1 ++ r.take 1)

/-- Whether the ring vertex `v` lies strictly above the horizontal line
through height `py` (the test the ray-casting rule applies to each edge
endpoint). -/
def aboveLine (py : ℚ) (v : Point) : Bool :=
  decide (py < v.y)

/-- Whether an edge straddles the horizontal line through `py`: exactly one
endpoint is strictly above it. -/
def yStraddles (py : ℚ) (e : Point × Point) : Bool :=
  aboveLine py e.1 != aboveLine py e.2

/-- The x-coordinate at which the (extended) edge `e` meets the horizontal
line through `py`. -/
def rayIntersectX (py : ℚ) (e : Point × Point) : ℚ :=
  e.1.x + (py - e.1.y) * (e.2.x - e.1.x) / (e.2.y - e.1.y)

/-- Whether a rightward horizontal ray from `p` crosses edge `e`, under the
standard ray-casting rule. -/
def crossesRay (p : Point) (e : Point × Point) : Bool :=
  yStraddles p.y e && decide (p.x < rayIntersectX p.y e)

/-- Number of ring edges crossed by the rightward ray from `p`. -/
def crossingCount (p : Point) (r : Ring) : Nat :=
  (ringEdges r).countP (crossesRay p)

/-- Whether `p` lies on the closed segment from `a` to `b`. -/
def onSegment (p a b : Point) : Bool :=
  decide ((b.x - a.x) * (p.y - a.y) = (b.y - a.y) * (p.x - a.x)) &&
  decide (min a.x b.x ≤ p.x) && decide (p.x ≤ max a.x b.x) &&
  decide (min a.y b.y ≤ p.y) && decide (p.y ≤ max a.y b.y)

/-- Whether `p` lies on the boundary of ring `r`. -/
def onRingBoundary (p : Point) (r : Ring) : Bool :=
  (ringEdges r).any (fun e => onSegment p e.1 e.2)

/-- Whether `p` lies in the closed region bounded by ring `r` (on the
boundary, or inside by odd ray-crossing parity). -/
def inRingClosed (p : Point) (r : Ring) : Bool :=
  onRingBoundary p r || decide (crossingCount p r % 2 = 1)

/-- Whether `p` lies strictly inside ring `r` (odd parity and not on the
boundary). -/
def inRingOpen (p : Point) (r : Ring) : Bool :=
  !onRingBoundary p r && decide (crossingCount p r % 2 = 1)

/-- Modelled from the spec: the external boundary-inclusive containment
primitive covered_by restricted to one simple polygon — inside or on the
outer ring and not strictly inside any hole. -/
def coveredBySimple (p : Point) (poly : SimplePolygon) : Bool :=
  inRingClosed p poly.outer && poly.holes.all (fun h => !inRingOpen p h)

/-- Modelled from the spec: the external containment primitive covered_by
on a multi-polygon — a point is covered when it is covered by any part. -/
def coveredBy (p : Point) (mp : MultiPolygon) : Bool :=
  mp.any (coveredBySimple p)

/-- Cross product term contributed by the directed edge from `a` to `b` in
the shoelace formula. -/
def edgeCross (a b : Point) : ℚ :=
  a.x * b.y - b.x * a.y

/-- Sum of shoelace terms along the open polyline starting at the first
argument and continuing through the list. -/
def crossSum : Point → List Point → ℚ
  | _, [] => 0
  | a, b :: rest => edgeCross a b + crossSum b rest

/-- The (signed) shoelace sum of a ring, traversed cyclically. -/
def shoelace : Ring → ℚ
  | [] => 0
  | a :: rest => crossSum a (rest ++ [a])

/-- Absolute value on the rationals, written out so that it evaluates by
plain reduction. -/
def ratAbs (q : ℚ) : ℚ :=
  if q < 0 then -q else q

/-- Modelled from the spec: the absolute area of one ring, half the
absolute value of its shoelace sum; degenerate rings contribute zero. -/
def ringArea (r : Ring) : ℚ :=
  ratAbs (shoelace r) / 2

/-- Modelled from the spec: area of a simple polygon — outer ring area
minus the areas of its hole rings. -/
def simpleArea (sp : SimplePolygon) : ℚ :=
  ringArea sp.outer - (sp.holes.map ringArea).sum

/-- Modelled from the spec: area of a multi-polygon, accumulated across
all of its parts.  The polygon set precomputes this per slot. -/
def multiArea (mp : MultiPolygon) : ℚ :=
  (mp.map simpleArea).sum

/-- The parallel per-slot area array maintained by the dictionary:
`areas[i]` is always the precomputed area of `geometry[i]`. -/
def areasOf (polys : List MultiPolygon) : List ℚ :=
  polys.map multiArea

/-! ### The linear locator (SimplePolygonDictionary::find) -/

/-- One pass of the scan loop in SimplePolygonDictionary::find: the state
carries the `found` flag, the best area so far and the in-out `id`
parameter, and each step tests containment and keeps the strictly smaller
area. -/
def SimplePolygonDictionary.findLoop (polys : List MultiPolygon) (areas : List ℚ)
    (p : Point) : List Nat → Bool × ℚ × Nat → Bool × ℚ × Nat
  | [], st => st
  | i :: rest, (found, area, id) =>
    if coveredBy p (polys.getD i []) then
      let newArea := areas.getD i 0
      if !found || decide (newArea < area) then
        SimplePolygonDictionary.findLoop polys areas p rest (true, newArea, i)
      else
        SimplePolygonDictionary.findLoop polys areas p rest (found, area, id)
    else
      SimplePolygonDictionary.findLoop polys areas p rest (found, area, id)

/-- SimplePolygonDictionary::find: scan every slot, keep the covering slot
of strictly smallest area.  The boolean result is the return value, the
`Nat` result is the final value of the in-out `id` parameter (initially
`id0`). -/
def SimplePolygonDictionary.find (polys : List MultiPolygon) (p : Point) (id0 : Nat) :
    Bool × Nat :=
  let st := SimplePolygonDictionary.findLoop polys (areasOf polys) p
    (List.range polys.length) (false, 0, id0)
  (st.1, st.2.2)

/-! ### Bounding rectangles -/

/-- An axis-aligned rectangle. -/
structure Rect where
  xmin : ℚ
  ymin : ℚ
  xmax : ℚ
  ymax : ℚ
deriving DecidableEq, Repr

/-- Closed membership of a coordinate pair in a rectangle. -/
def Rect.containsPt (r : Rect) (x y : ℚ) : Bool :=
  decide (r.xmin ≤ x) && decide (x ≤ r.xmax) &&
  decide (r.ymin ≤ y) && decide (y ≤ r.ymax)

/-- Strict membership of a coordinate pair in a rectangle. -/
def Rect.strictContains (r : Rect) (x y : ℚ) : Bool :=
  decide (r.xmin < x) && decide (x < r.xmax) &&
  decide (r.ymin < y) && decide (y < r.ymax)

/-- Whether two rectangles intersect (share at least one point). -/
def Rect.intersects (r s : Rect) : Bool :=
  decide (r.xmin ≤ s.xmax) && decide (s.xmin ≤ r.xmax) &&
  decide (r.ymin ≤ s.ymax) && decide (s.ymin ≤ r.ymax)

/-- Grow a rectangle to also cover a point. -/
def expandRect (r : Rect) (p : Point) : Rect :=
  ⟨min r.xmin p.x, min r.ymin p.y, max r.xmax p.x, max r.ymax p.y⟩

/-- The bounding rectangle of a list of points, when the list is
nonempty. -/
def bboxOfPoints : List Point → Option Rect
  | [] => none
  | p :: ps => some (ps.foldl expandRect ⟨p.x, p.y, p.x, p.y⟩)

/-- Every vertex of every ring of a multi-polygon. -/
def allPoints (mp : MultiPolygon) : List Point :=
  mp.flatMap (fun sp => sp.outer ++ sp.holes.flatten)

/-- The bounding rectangle of one polygon set entry. -/
def polyBbox (mp : MultiPolygon) : Option Rect :=
  bboxOfPoints (allPoints mp)

/-- The union bounding rectangle of the whole polygon set (the root cell's
rectangle).  An empty set gets a degenerate default rectangle. -/
def rootRect (polys : List MultiPolygon) : Rect :=
  (bboxOfPoints (polys.flatMap allPoints)).getD ⟨0, 0, 0, 0⟩

/-! ### Ascending-area ordering (GridPolygonDictionary constructor) -/

/-- Insert slot `i` into an area-ordered list of earlier slots, after all
slots of less-or-equal area.  Used by buildOrder to produce one concrete
sorted permutation of the slots. -/
def insertByArea (areas : List ℚ) (i : Nat) : List Nat → List Nat
  | [] => [i]
  | j :: rest =>
    if decide (areas.getD j 0 ≤ areas.getD i 0) then
      j :: insertByArea areas i rest
    else
      i :: j :: rest

/-- One concrete outcome of the sort in the GridPolygonDictionary
constructor: all slots `0..n-1` sorted by ascending area.  The source
builds this array with std::sort under the comparator
`areas[lhs] < areas[rhs]`, whose postcondition is only a sorted
permutation (validOrder below): the relative order of slots with exactly
equal areas is unspecified.  This executable instance happens to keep
equal-area slots in slot order; properties that depend on the tie order
are therefore stated over every validOrder, not over this instance. -/
def buildOrder (areas : List ℚ) : List Nat :=
  (List.range areas.length).foldl (fun acc i => insertByArea areas i acc) []

/-! ### The grid index (spec-modelled GridRoot) -/

/-- Modelled from the spec: a cell of the grid index tree (the GridRoot
structure is not part of the available source).  A cell owns its rectangle
and either a leaf candidate list or exactly four child cells partitioning
its rectangle into quadrants. -/
inductive Cell where
  | leaf (rect : Rect) (polygon_ids : List Nat)
  | node (rect : Rect) (c00 c10 c01 c11 : Cell)

/-- Modelled from the spec: a leaf's candidate list — the subsequence of
the ordered slots whose bounding boxes intersect the given rectangle. -/
def candidatesOf (polys : List MultiPolygon) (ordered : List Nat) (r : Rect) :
    List Nat :=
  ordered.filter (fun i =>
    match polyBbox (polys.getD i []) with
    | some b => b.intersects r
    | none => false)

/-- Modelled from the spec: recursive grid construction.  A cell splits
into four equal quadrants while more than `minInter` candidate polygons
intersect its rectangle and depth remains below the maximum (`fuel` is the
remaining depth budget `max_depth - depth`); otherwise it becomes a leaf
holding the candidate subsequence. -/
def buildCell (polys : List MultiPolygon) (ordered : List Nat) (minInter : Nat)
    (r : Rect) : Nat → Cell
  | 0 => Cell.leaf r (candidatesOf polys ordered r)
  | fuel + 1 =>
    let cands := candidatesOf polys ordered r
    if minInter < cands.length then
      let mx := (r.xmin + r.xmax) / 2
      let my := (r.ymin + r.ymax) / 2
      Cell.node r
        (buildCell polys ordered minInter ⟨r.xmin, r.ymin, mx, my⟩ fuel)
        (buildCell polys ordered minInter ⟨mx, r.ymin, r.xmax, my⟩ fuel)
        (buildCell polys ordered minInter ⟨r.xmin, my, mx, r.ymax⟩ fuel)
        (buildCell polys ordered minInter ⟨mx, my, r.xmax, r.ymax⟩ fuel)
    else
      Cell.leaf r cands

/-- Modelled from the spec: descend from a cell to the leaf whose
rectangle contains the point, choosing the quadrant by comparing against
the midpoint. -/
def cellLocate (p : Point) : Cell → List Nat
  | Cell.leaf _ ids => ids
  | Cell.node r c00 c10 c01 c11 =>
    let mx := (r.xmin + r.xmax) / 2
    let my := (r.ymin + r.ymax) / 2
    if decide (p.x < mx) then
      if decide (p.y < my) then cellLocate p c00 else cellLocate p c01
    else
      if decide (p.y < my) then cellLocate p c10 else cellLocate p c11

/-- The grid dictionary state: the polygon set plus the two grid tuning
parameters (kMinIntersections and kMaxDepth in the source header). -/
structure GridDict where
  polys : List MultiPolygon
  minInter : Nat
  maxDepth : Nat

/-- The ascending-area ordering the grid is initialized with. -/
def GridDict.order (d : GridDict) : List Nat :=
  buildOrder (areasOf d.polys)

/-- The root cell of the grid tree. -/
def GridDict.root (d : GridDict) : Cell :=
  buildCell d.polys d.order d.minInter (rootRect d.polys) d.maxDepth

/-- Modelled from the spec: grid.find — null outside the root rectangle,
otherwise the candidate list of the leaf containing the point. -/
def GridDict.locate (d : GridDict) (x y : ℚ) : Option (List Nat) :=
  if (rootRect d.polys).containsPt x y then some (cellLocate ⟨x, y⟩ d.root)
  else none

/-- The candidate scan in GridPolygonDictionary::find: return the first
candidate whose geometry covers the point, breaking out of the loop. -/
def scanCandidates (polys : List MultiPolygon) (p : Point) :
    List Nat → Nat → Bool × Nat
  | [], id0 => (false, id0)
  | c :: rest, id0 =>
    if coveredBy p (polys.getD c []) then (true, c)
    else scanCandidates polys p rest id0

/-- GridPolygonDictionary::find: look up the cell for the point and scan
its candidate list in order, stopping at the first containment match.  The
`Nat` result is the final value of the in-out `id` parameter. -/
def GridPolygonDictionary.find (d : GridDict) (p : Point) (id0 : Nat) : Bool × Nat :=
  match d.locate p.x p.y with
  | none => (false, id0)
  | some ids => scanCandidates d.polys p ids id0

/-- Query dispatch: resolve a found slot to its caller-supplied external
identifier (a pure array index into the parallel id array). -/
def externalFind (polys : List MultiPolygon) (ids : List Nat) (p : Point) :
    Option Nat :=
  let r := SimplePolygonDictionary.find polys p 0
  if r.1 then some (ids.getD r.2 0) else none

/-! ### Parity of ray crossings around a closed ring -/

/-- Number of value flips along a run of booleans, starting from a given
previous value. -/
def boolChanges : Bool → List Bool → Nat
  | _, [] => 0
  | prev, b :: rest => (if prev != b then 1 else 0) + boolChanges b rest

lemma boolChanges_mod_two (bs : List Bool) : ∀ a : Bool,
    boolChanges a bs % 2 = if bs.getLastD a = a then 0 else 1 := by
  induction bs with
  | nil => intro a; simp [boolChanges]
  | cons b rest ih =>
    intro a
    rw [List.getLastD_cons]
    have hstep : boolChanges a (b :: rest) =
        (if a != b then 1 else 0) + boolChanges b rest := rfl
    have h := ih b
    rw [hstep]
    cases hL : rest.getLastD b <;> rw [hL] at h <;> cases a <;> cases b <;>
      simp only [bne_self_eq_false, Bool.false_bne, Bool.true_bne,
        Bool.not_true, Bool.not_false, if_true, if_false] at h ⊢ <;>
      simp at h ⊢ <;> omega

lemma countP_zip_ring (f : Point → Bool) :
    ∀ (u : List Point) (x y : Point),
    ((x :: u).zip (u ++ [y])).countP (fun e => f e.1 != f e.2) =
      boolChanges (f x) (u.map f ++ [f y]) := by
  intro u
  induction u with
  | nil =>
    intro x y
    simp [boolChanges, List.countP_cons]
  | cons w u' ih =>
    intro x y
    simp only [List.cons_append, List.zip_cons_cons, List.countP_cons,
      List.map_cons, boolChanges, List.append_eq]
    rw [ih w y]
    omega

/-- Around a closed ring, the number of edges straddling any horizontal
line is even. -/
lemma straddle_count_even (py : ℚ) (r : Ring) :
    (ringEdges r).countP (yStraddles py) % 2 = 0 := by
  cases r with
  | nil => simp [ringEdges]
  | cons v vs =>
    have h1 : ringEdges (v :: vs) = (v :: vs).zip (vs ++ [v]) := by
      simp [ringEdges]
    have h2 : yStraddles py =
        (fun e : Point × Point => aboveLine py e.1 != aboveLine py e.2) := by
      funext e; rfl
    rw [h1, h2, countP_zip_ring (aboveLine py) vs v v, boolChanges_mod_two]
    rw [List.getLastD_concat]
    simp

lemma mem_of_mem_ringEdges {r : Ring} {e : Point × Point}
    (h : e ∈ ringEdges r) : e.1 ∈ r ∧ e.2 ∈ r := by
  obtain ⟨a, b⟩ := e
  obtain ⟨h1, h2⟩ := List.of_mem_zip h
  refine ⟨h1, ?_⟩
  rcases List.mem_append.1 h2 with hb | hb
  · exact List.mem_of_mem_drop hb
  · exact List.mem_of_mem_take hb

lemma yStraddles_cases {py : ℚ} {a b : Point}
    (h : yStraddles py (a, b) = true) :
    (b.y ≤ py ∧ py < a.y) ∨ (a.y ≤ py ∧ py < b.y) := by
  unfold yStraddles aboveLine at h
  rw [bne_iff_ne, ne_eq, decide_eq_decide] at h
  rcases lt_or_le py a.y with h1 | h1 <;> rcases lt_or_le py b.y with h2 | h2
  · exact absurd (iff_of_true h1 h2) h
  · exact Or.inl ⟨h2, h1⟩
  · exact Or.inr ⟨h1, h2⟩
  · exact absurd (iff_of_false (not_lt.2 h1) (not_lt.2 h2)) h

/-- The crossing abscissa of a straddling edge lies between the x
coordinates of the edge's endpoints. -/
lemma rayIntersectX_mem_segment {py : ℚ} {a b : Point}
    (h : yStraddles py (a, b) = true) :
    min a.x b.x ≤ rayIntersectX py (a, b) ∧
      rayIntersectX py (a, b) ≤ max a.x b.x := by
  have hval : ∀ s : ℚ, 0 ≤ s → s ≤ 1 →
      min a.x b.x ≤ a.x + s * (b.x - a.x) ∧
        a.x + s * (b.x - a.x) ≤ max a.x b.x := by
    intro s hs0 hs1
    rcases le_total a.x b.x with hab | hab
    · rw [min_eq_left hab, max_eq_right hab]
      constructor <;> nlinarith
    · rw [min_eq_right hab, max_eq_left hab]
      constructor <;> nlinarith
  have hform : rayIntersectX py (a, b) =
      a.x + (py - a.y) / (b.y - a.y) * (b.x - a.x) := by
    unfold rayIntersectX
    ring
  rcases yStraddles_cases h with ⟨h1, h2⟩ | ⟨h1, h2⟩
  · have hd : b.y - a.y < 0 := by linarith
    have hs0 : 0 ≤ (py - a.y) / (b.y - a.y) := by
      rw [le_div_iff_of_neg hd]; linarith
    have hs1 : (py - a.y) / (b.y - a.y) ≤ 1 := by
      rw [div_le_iff_of_neg hd]; linarith
    rw [hform]; exact hval _ hs0 hs1
  · have hd : 0 < b.y - a.y := by linarith
    have hs0 : 0 ≤ (py - a.y) / (b.y - a.y) := by
      apply div_nonneg (by linarith) (le_of_lt hd)
    have hs1 : (py - a.y) / (b.y - a.y) ≤ 1 := by
      rw [div_le_one hd]; linarith
    rw [hform]; exact hval _ hs0 hs1

lemma onSegment_bounds {p a b : Point} (h : onSegment p a b = true) :
    min a.x b.x ≤ p.x ∧ p.x ≤ max a.x b.x ∧
      min a.y b.y ≤ p.y ∧ p.y ≤ max a.y b.y := by
  unfold onSegment at h
  simp only [Bool.and_eq_true, decide_eq_true_eq] at h
  tauto

lemma exists_le_of_min_le {p : ℚ} {a b : Point} (hm : min a.x b.x ≤ p) :
    ∃ q : Point, (q = a ∨ q = b) ∧ q.x ≤ p := by
  rcases le_total a.x b.x with hab | hab
  · exact ⟨a, Or.inl rfl, by rwa [min_eq_left hab] at hm⟩
  · exact ⟨b, Or.inr rfl, by rwa [min_eq_right hab] at hm⟩

lemma exists_ge_of_le_max {p : ℚ} {a b : Point} (hm : p ≤ max a.x b.x) :
    ∃ q : Point, (q = a ∨ q = b) ∧ p ≤ q.x := by
  rcases le_total a.x b.x with hab | hab
  · exact ⟨b, Or.inr rfl, by rwa [max_eq_right hab] at hm⟩
  · exact ⟨a, Or.inl rfl, by rwa [max_eq_left hab] at hm⟩

/-- A point in the closed region of a ring is bounded in all four
directions by vertices of the ring. -/
lemma inRingClosed_bounds {p : Point} {r : Ring}
    (h : inRingClosed p r = true) :
    (∃ q ∈ r, q.x ≤ p.x) ∧ (∃ q ∈ r, p.x ≤ q.x) ∧
      (∃ q ∈ r, q.y ≤ p.y) ∧ (∃ q ∈ r, p.y ≤ q.y) := by
  unfold inRingClosed at h
  rw [Bool.or_eq_true] at h
  have hxlow : ¬ (∀ q ∈ r, p.x < q.x) := by
    intro hall
    rcases h with hb | hc
    · unfold onRingBoundary at hb
      rw [List.any_eq_true] at hb
      obtain ⟨e, he, hseg⟩ := hb
      obtain ⟨h1, h2⟩ := mem_of_mem_ringEdges he
      obtain ⟨hx1, _, _, _⟩ := onSegment_bounds hseg
      obtain ⟨q, hq, hqx⟩ := exists_le_of_min_le hx1
      rcases hq with rfl | rfl
      · exact absurd hqx (not_le.2 (hall _ h1))
      · exact absurd hqx (not_le.2 (hall _ h2))
    · rw [decide_eq_true_eq] at hc
      unfold crossingCount at hc
      have : (ringEdges r).countP (crossesRay p) =
          (ringEdges r).countP (yStraddles p.y) := by
        apply List.countP_congr
        intro e he
        constructor
        · intro hcr
          unfold crossesRay at hcr
          rw [Bool.and_eq_true] at hcr
          exact hcr.1
        · intro hstr
          unfold crossesRay
          rw [Bool.and_eq_true]
          refine ⟨hstr, decide_eq_true ?_⟩
          obtain ⟨h1, h2⟩ := mem_of_mem_ringEdges he
          have hmin := (rayIntersectX_mem_segment (a := e.1) (b := e.2) hstr).1
          have hlt : p.x < min e.1.x e.2.x :=
            lt_min (hall _ h1) (hall _ h2)
          exact lt_of_lt_of_le hlt hmin
      rw [this, straddle_count_even] at hc
      exact absurd hc (by norm_num)
  push_neg at hxlow
  obtain ⟨qlo, hqlo, hqlox⟩ := hxlow
  rcases h with hb | hc
  · unfold onRingBoundary at hb
    rw [List.any_eq_true] at hb
    obtain ⟨e, he, hseg⟩ := hb
    obtain ⟨h1, h2⟩ := mem_of_mem_ringEdges he
    obtain ⟨hx1, hx2, hy1, hy2⟩ := onSegment_bounds hseg
    refine ⟨⟨qlo, hqlo, hqlox⟩, ?_, ?_, ?_⟩
    · obtain ⟨q, hq, hqx⟩ := exists_ge_of_le_max hx2
      rcases hq with rfl | rfl
      · exact ⟨_, h1, hqx⟩
      · exact ⟨_, h2, hqx⟩
    · rcases le_total e.1.y e.2.y with hab | hab
      · exact ⟨e.1, h1, by rwa [min_eq_left hab] at hy1⟩
      · exact ⟨e.2, h2, by rwa [min_eq_right hab] at hy1⟩
    · rcases le_total e.1.y e.2.y with hab | hab
      · exact ⟨e.2, h2, by rwa [max_eq_right hab] at hy2⟩
      · exact ⟨e.1, h1, by rwa [max_eq_left hab] at hy2⟩
  · rw [decide_eq_true_eq] at hc
    unfold crossingCount at hc
    have hpos : 0 < (ringEdges r).countP (crossesRay p) := by
      rcases Nat.eq_zero_or_pos ((ringEdges r).countP (crossesRay p)) with hz | hp
      · rw [hz] at hc; norm_num at hc
      · exact hp
    rw [List.countP_pos] at hpos
    obtain ⟨e, he, hcr⟩ := hpos
    obtain ⟨h1, h2⟩ := mem_of_mem_ringEdges he
    unfold crossesRay at hcr
    rw [Bool.and_eq_true, decide_eq_true_eq] at hcr
    obtain ⟨hstr, hxlt⟩ := hcr
    have hmax := (rayIntersectX_mem_segment (a := e.1) (b := e.2) hstr).2
    refine ⟨⟨qlo, hqlo, hqlox⟩, ?_, ?_, ?_⟩
    · obtain ⟨q, hq, hqx⟩ := exists_ge_of_le_max
        (le_of_lt (lt_of_lt_of_le hxlt hmax))
      rcases hq with rfl | rfl
      · exact ⟨_, h1, hqx⟩
      · exact ⟨_, h2, hqx⟩
    · rcases yStraddles_cases hstr with ⟨hy1, _⟩ | ⟨hy1, _⟩
      · exact ⟨e.2, h2, hy1⟩
      · exact ⟨e.1, h1, hy1⟩
    · rcases yStraddles_cases hstr with ⟨_, hy2⟩ | ⟨_, hy2⟩
      · exact ⟨e.1, h1, le_of_lt hy2⟩
      · exact ⟨e.2, h2, le_of_lt hy2⟩

/-! ### Bounding-box facts -/

/-- `B` bounds every point of `pts`. -/
def boundsAll (B : Rect) (pts : List Point) : Prop :=
  ∀ q ∈ pts, B.xmin ≤ q.x ∧ q.x ≤ B.xmax ∧ B.ymin ≤ q.y ∧ q.y ≤ B.ymax

lemma foldl_expandRect_shrink (ps : List Point) : ∀ r0 : Rect,
    (ps.foldl expandRect r0).xmin ≤ r0.xmin ∧
    r0.xmax ≤ (ps.foldl expandRect r0).xmax ∧
    (ps.foldl expandRect r0).ymin ≤ r0.ymin ∧
    r0.ymax ≤ (ps.foldl expandRect r0).ymax := by
  induction ps with
  | nil => intro r0; simp
  | cons p ps ih =>
    intro r0
    simp only [List.foldl_cons]
    obtain ⟨h1, h2, h3, h4⟩ := ih (expandRect r0 p)
    unfold expandRect at h1 h2 h3 h4
    exact ⟨le_trans h1 (min_le_left _ _), le_trans (le_max_left _ _) h2,
      le_trans h3 (min_le_left _ _), le_trans (le_max_left _ _) h4⟩

lemma foldl_expandRect_bounds (ps : List Point) : ∀ (r0 : Rect) (q : Point),
    q ∈ ps → (ps.foldl expandRect r0).xmin ≤ q.x ∧
      q.x ≤ (ps.foldl expandRect r0).xmax ∧
      (ps.foldl expandRect r0).ymin ≤ q.y ∧
      q.y ≤ (ps.foldl expandRect r0).ymax := by
  induction ps with
  | nil => intro r0 q hq; exact absurd hq (List.not_mem_nil q)
  | cons p ps ih =>
    intro r0 q hq
    simp only [List.foldl_cons]
    rcases List.mem_cons.1 hq with rfl | hq'
    · obtain ⟨h1, h2, h3, h4⟩ := foldl_expandRect_shrink ps (expandRect r0 q)
      unfold expandRect at h1 h2 h3 h4
      exact ⟨le_trans h1 (min_le_right _ _), le_trans (le_max_right _ _) h2,
        le_trans h3 (min_le_right _ _), le_trans (le_max_right _ _) h4⟩
    · exact ih (expandRect r0 p) q hq'

lemma bboxOfPoints_boundsAll {pts : List Point} {B : Rect}
    (h : bboxOfPoints pts = some B) : boundsAll B pts := by
  cases pts with
  | nil => simp [bboxOfPoints] at h
  | cons p ps =>
    simp only [bboxOfPoints, Option.some_inj] at h
    subst h
    intro q hq
    rcases List.mem_cons.1 hq with rfl | hq'
    · obtain ⟨h1, h2, h3, h4⟩ :=
        foldl_expandRect_shrink ps ⟨q.x, q.y, q.x, q.y⟩
      exact ⟨h1, h2, h3, h4⟩
    · exact foldl_expandRect_bounds ps _ q hq'

lemma bboxOfPoints_isSome {pts : List Point} (h : pts ≠ []) :
    ∃ B, bboxOfPoints pts = some B := by
  cases pts with
  | nil => exact absurd rfl h
  | cons p ps => exact ⟨_, rfl⟩

/-- A covered point is bounded by any rectangle bounding all of the
polygon's vertices. -/
lemma coveredBy_containsPt {p : Point} {mp : MultiPolygon} {B : Rect}
    (hB : boundsAll B (allPoints mp)) (h : coveredBy p mp = true) :
    B.containsPt p.x p.y = true := by
  unfold coveredBy at h
  rw [List.any_eq_true] at h
  obtain ⟨sp, hsp, hcov⟩ := h
  unfold coveredBySimple at hcov
  rw [Bool.and_eq_true] at hcov
  have hmem : ∀ q ∈ sp.outer, q ∈ allPoints mp := by
    intro q hq
    unfold allPoints
    rw [List.mem_flatMap]
    exact ⟨sp, hsp, List.mem_append_left _ hq⟩
  obtain ⟨⟨qa, hqa, hqax⟩, ⟨qb, hqb, hqbx⟩, ⟨qc, hqc, hqcy⟩, ⟨qd, hqd, hqdy⟩⟩ :=
    inRingClosed_bounds hcov.1
  have ha := hB qa (hmem qa hqa)
  have hb := hB qb (hmem qb hqb)
  have hc := hB qc (hmem qc hqc)
  have hd := hB qd (hmem qd hqd)
  unfold Rect.containsPt
  simp only [Bool.and_eq_true, decide_eq_true_eq]
  exact ⟨⟨⟨le_trans ha.1 hqax, le_trans hqbx hb.2.1⟩,
    le_trans hc.2.2.1 hqcy⟩, le_trans hqdy hd.2.2.2⟩

/-- A covered polygon has a nonempty point list, hence a bounding box, and
the covered point lies in it. -/
lemma coveredBy_polyBbox {p : Point} {mp : MultiPolygon}
    (h : coveredBy p mp = true) :
    ∃ b, polyBbox mp = some b ∧ b.containsPt p.x p.y = true := by
  have hne : allPoints mp ≠ [] := by
    unfold coveredBy at h
    rw [List.any_eq_true] at h
    obtain ⟨sp, hsp, hcov⟩ := h
    unfold coveredBySimple at hcov
    rw [Bool.and_eq_true] at hcov
    obtain ⟨⟨qa, hqa, _⟩, _, _, _⟩ := inRingClosed_bounds hcov.1
    intro hemp
    have : qa ∈ allPoints mp := by
      unfold allPoints
      rw [List.mem_flatMap]
      exact ⟨sp, hsp, List.mem_append_left _ hqa⟩
    rw [hemp] at this
    exact absurd this (List.not_mem_nil qa)
  obtain ⟨B, hB⟩ := bboxOfPoints_isSome hne
  exact ⟨B, hB, coveredBy_containsPt (bboxOfPoints_boundsAll hB) h⟩

/-- A point covered by any polygon of the set lies inside the root
rectangle of the set. -/
lemma coveredBy_rootRect {p : Point} {polys : List MultiPolygon} {j : Nat}
    (hj : j < polys.length) (h : coveredBy p (polys.getD j []) = true) :
    (rootRect polys).containsPt p.x p.y = true := by
  have hsub : ∀ q ∈ allPoints (polys.getD j []), q ∈ polys.flatMap allPoints := by
    intro q hq
    rw [List.mem_flatMap]
    refine ⟨polys.getD j [], ?_, hq⟩
    rw [List.getD_eq_getElem polys [] hj]
    exact List.getElem_mem hj
  have hne : polys.flatMap allPoints ≠ [] := by
    unfold coveredBy at h
    rw [List.any_eq_true] at h
    obtain ⟨sp, hsp, hcov⟩ := h
    unfold coveredBySimple at hcov
    rw [Bool.and_eq_true] at hcov
    obtain ⟨⟨qa, hqa, _⟩, _, _, _⟩ := inRingClosed_bounds hcov.1
    intro hemp
    have hq : qa ∈ allPoints (polys.getD j []) := by
      unfold allPoints
      rw [List.mem_flatMap]
      exact ⟨sp, hsp, List.mem_append_left _ hqa⟩
    have := hsub qa hq
    rw [hemp] at this
    exact absurd this (List.not_mem_nil qa)
  obtain ⟨B, hB⟩ := bboxOfPoints_isSome hne
  have hroot : rootRect polys = B := by
    unfold rootRect
    rw [hB]
    rfl
  rw [hroot]
  apply coveredBy_containsPt _ h
  intro q hq
  exact bboxOfPoints_boundsAll hB q (hsub q hq)

/-! ### The common find contract -/

/-- Whether slot `i` of the polygon set covers the point. -/
def covers (polys : List MultiPolygon) (p : Point) (i : Nat) : Bool :=
  coveredBy p (polys.getD i [])

/-- The precomputed area of slot `i`. -/
def areaAt (polys : List MultiPolygon) (i : Nat) : ℚ :=
  (areasOf polys).getD i 0

/-- The observable contract shared by both locators: either nothing covers
the point and the result is not-found with the in-out id untouched, or the
result is the covering slot of smallest area, exact ties resolved to the
smallest slot index. -/
def FindSpec (polys : List MultiPolygon) (p : Point) (id0 : Nat)
    (res : Bool × Nat) : Prop :=
  (res = (false, id0) ∧ ∀ j < polys.length, covers polys p j = false) ∨
  (res.1 = true ∧ res.2 < polys.length ∧ covers polys p res.2 = true ∧
    ∀ j < polys.length, covers polys p j = true →
      areaAt polys res.2 < areaAt polys j ∨
        (areaAt polys res.2 = areaAt polys j ∧ res.2 ≤ j))

/-- At most one result satisfies the find contract. -/
lemma FindSpec_unique {polys : List MultiPolygon} {p : Point} {id0 : Nat}
    {res1 res2 : Bool × Nat} (h1 : FindSpec polys p id0 res1)
    (h2 : FindSpec polys p id0 res2) : res1 = res2 := by
  rcases h1 with ⟨e1, n1⟩ | ⟨f1, lt1, c1, a1⟩ <;>
    rcases h2 with ⟨e2, n2⟩ | ⟨f2, lt2, c2, a2⟩
  · rw [e1, e2]
  · rw [n1 res2.2 lt2] at c2; exact absurd c2 (by simp)
  · rw [n2 res1.2 lt1] at c1; exact absurd c1 (by simp)
  · have m1 := a1 res2.2 lt2 c2
    have m2 := a2 res1.2 lt1 c1
    have hv : res1.2 = res2.2 := by
      rcases m1 with hlt | ⟨heq, hle⟩ <;> rcases m2 with hlt' | ⟨heq', hle'⟩
      · linarith
      · linarith
      · linarith
      · exact le_antisymm hle hle'
    rw [Prod.ext_iff]
    exact ⟨f1.trans f2.symm, hv⟩

/-- The part of the find contract that every sorted permutation of the
slots induces on the grid locator, regardless of how the sort ordered
slots of exactly equal area: either nothing covers the point, or the
result is some covering slot of minimal area. -/
def FindSpecWeak (polys : List MultiPolygon) (p : Point) (id0 : Nat)
    (res : Bool × Nat) : Prop :=
  (res = (false, id0) ∧ ∀ j < polys.length, covers polys p j = false) ∨
  (res.1 = true ∧ res.2 < polys.length ∧ covers polys p res.2 = true ∧
    ∀ j < polys.length, covers polys p j = true →
      areaAt polys res.2 ≤ areaAt polys j)

/-! ### Correctness of the linear scan -/

lemma findLoop_cons (polys : List MultiPolygon) (areas : List ℚ) (p : Point)
    (i : Nat) (rest : List Nat) (found : Bool) (area : ℚ) (id : Nat) :
    SimplePolygonDictionary.findLoop polys areas p (i :: rest)
        (found, area, id) =
      if coveredBy p (polys.getD i []) then
        (if !found || decide (areas.getD i 0 < area) then
          SimplePolygonDictionary.findLoop polys areas p rest
            (true, areas.getD i 0, i)
        else
          SimplePolygonDictionary.findLoop polys areas p rest
            (found, area, id))
      else
        SimplePolygonDictionary.findLoop polys areas p rest
          (found, area, id) := rfl

lemma findLoop_id (polys : List MultiPolygon) (areas : List ℚ) (p : Point) :
    ∀ (l : List Nat) (st : Bool × ℚ × Nat),
    (∀ i ∈ l, coveredBy p (polys.getD i []) = false) →
    SimplePolygonDictionary.findLoop polys areas p l st = st := by
  intro l
  induction l with
  | nil => intro st _; rfl
  | cons i rest ih =>
    intro st hnone
    obtain ⟨found, area, id⟩ := st
    unfold SimplePolygonDictionary.findLoop
    rw [hnone i (List.mem_cons_self i rest)]
    simp only [Bool.false_eq_true, if_false]
    exact ih _ (fun j hj => hnone j (List.mem_cons_of_mem i hj))

/-- The running best the loop maintains once a first match was found. -/
def bestFrom (polys : List MultiPolygon) (p : Point) : List Nat → Nat → Nat
  | [], c => c
  | i :: rest, c =>
    if covers polys p i && decide (areaAt polys i < areaAt polys c) then
      bestFrom polys p rest i
    else
      bestFrom polys p rest c

lemma findLoop_true (polys : List MultiPolygon) (p : Point) :
    ∀ (l : List Nat) (c : Nat),
    SimplePolygonDictionary.findLoop polys (areasOf polys) p l
        (true, areaAt polys c, c) =
      (true, areaAt polys (bestFrom polys p l c), bestFrom polys p l c) := by
  intro l
  induction l with
  | nil => intro c; rfl
  | cons i rest ih =>
    intro c
    unfold SimplePolygonDictionary.findLoop bestFrom
    by_cases hcov : coveredBy p (polys.getD i []) = true
    · have hcov' : covers polys p i = true := hcov
      by_cases hlt : areaAt polys i < areaAt polys c
      · have : (areasOf polys).getD i 0 = areaAt polys i := rfl
        simp only [hcov, hcov', hlt, if_true, Bool.not_true, Bool.false_or,
          decide_eq_true_eq, this, decide_True, Bool.true_and]
        exact ih i
      · have : (areasOf polys).getD i 0 = areaAt polys i := rfl
        simp only [hcov, hcov', hlt, if_true, Bool.not_true, Bool.false_or,
          this, decide_False, Bool.true_and, Bool.false_eq_true, if_false]
        exact ih c
    · have hcov' : covers polys p i = false := Bool.eq_false_iff.2 hcov
      simp only [hcov, hcov', Bool.false_eq_true, if_false, Bool.false_and]
      exact ih c

lemma bestFrom_char (polys : List MultiPolygon) (p : Point) :
    ∀ (l : List Nat) (c : Nat), covers polys p c = true →
    (∀ j ∈ l, c < j) → l.Pairwise (· < ·) →
    (bestFrom polys p l c = c ∨ bestFrom polys p l c ∈ l) ∧
    covers polys p (bestFrom polys p l c) = true ∧
    areaAt polys (bestFrom polys p l c) ≤ areaAt polys c ∧
    (areaAt polys (bestFrom polys p l c) = areaAt polys c →
      bestFrom polys p l c ≤ c) ∧
    ∀ j ∈ l, covers polys p j = true →
      areaAt polys (bestFrom polys p l c) < areaAt polys j ∨
        (areaAt polys (bestFrom polys p l c) = areaAt polys j ∧
          bestFrom polys p l c ≤ j) := by
  intro l
  induction l with
  | nil =>
    intro c hc _ _
    refine ⟨Or.inl rfl, hc, le_refl _, fun _ => le_refl _, ?_⟩
    intro j hj
    exact absurd hj (List.not_mem_nil j)
  | cons i rest ih =>
    intro c hc hlt hpw
    have hci : c < i := hlt i (List.mem_cons_self i rest)
    have hrest_lt : ∀ j ∈ rest, i < j := fun j hj => List.rel_of_pairwise_cons hpw hj
    have hrest_pw : rest.Pairwise (· < ·) := List.Pairwise.of_cons hpw
    unfold bestFrom
    by_cases hcond :
        (covers polys p i && decide (areaAt polys i < areaAt polys c)) = true
    · rw [Bool.and_eq_true, decide_eq_true_eq] at hcond
      obtain ⟨hicov, hilt⟩ := hcond
      simp only [hicov, hilt, decide_True, Bool.and_self, if_true]
      obtain ⟨hm, hcovm, hle, htie, hall⟩ := ih i hicov hrest_lt hrest_pw
      refine ⟨?_, hcovm, ?_, ?_, ?_⟩
      · rcases hm with hm' | hm'
        · exact Or.inr (by rw [hm']; exact List.mem_cons_self _ _)
        · exact Or.inr (List.mem_cons_of_mem _ hm')
      · exact le_of_lt (lt_of_le_of_lt hle hilt)
      · intro heq
        exact absurd heq (ne_of_lt (lt_of_le_of_lt hle hilt))
      · intro j hj hcovj
        rcases List.mem_cons.1 hj with rfl | hj'
        · rcases lt_or_eq_of_le hle with h1 | h1
          · exact Or.inl h1
          · exact Or.inr ⟨h1, htie h1⟩
        · exact hall j hj' hcovj
    · simp only [hcond, Bool.false_eq_true, if_false]
      have hcfacts : covers polys p i = false ∨
          areaAt polys c ≤ areaAt polys i := by
        by_cases hicov : covers polys p i = true
        · right
          by_contra hno
          push_neg at hno
          exact hcond (by rw [Bool.and_eq_true, decide_eq_true_eq]
                          exact ⟨hicov, hno⟩)
        · left; exact Bool.eq_false_iff.2 hicov
      obtain ⟨hm, hcovm, hle, htie, hall⟩ := ih c hc
        (fun j hj => lt_trans hci (hrest_lt j hj)) hrest_pw
      refine ⟨?_, hcovm, hle, htie, ?_⟩
      · rcases hm with hm' | hm'
        · exact Or.inl hm'
        · exact Or.inr (List.mem_cons_of_mem _ hm')
      · intro j hj hcovj
        rcases List.mem_cons.1 hj with rfl | hj'
        · rcases hcfacts with hf | hf
          · rw [hcovj] at hf; exact absurd hf (by simp)
          · rcases lt_or_eq_of_le (le_trans hle hf) with h1 | h1
            · exact Or.inl h1
            · refine Or.inr ⟨h1, ?_⟩
              have hmc : bestFrom polys p rest c ≤ c := by
                apply htie
                have := le_trans hle hf
                linarith [hle, hf]
              exact le_of_lt (lt_of_le_of_lt hmc hci)
        · exact hall j hj' hcovj

lemma findLoop_spec (polys : List MultiPolygon) (p : Point) (id0 : Nat) :
    ∀ (l : List Nat), l.Pairwise (· < ·) →
    (let res := SimplePolygonDictionary.findLoop polys (areasOf polys) p l
        (false, 0, id0)
    (res = (false, 0, id0) ∧ ∀ j ∈ l, covers polys p j = false) ∨
    (res.1 = true ∧ covers polys p res.2.2 = true ∧ res.2.2 ∈ l ∧
      ∀ j ∈ l, covers polys p j = true →
        areaAt polys res.2.2 < areaAt polys j ∨
          (areaAt polys res.2.2 = areaAt polys j ∧ res.2.2 ≤ j))) := by
  intro l
  induction l with
  | nil =>
    intro _
    left
    exact ⟨rfl, fun j hj => absurd hj (List.not_mem_nil j)⟩
  | cons i rest ih =>
    intro hpw
    have hrest_lt : ∀ j ∈ rest, i < j := fun j hj => List.rel_of_pairwise_cons hpw hj
    have hrest_pw : rest.Pairwise (· < ·) := List.Pairwise.of_cons hpw
    by_cases hcov : coveredBy p (polys.getD i []) = true
    · right
      have hstep : SimplePolygonDictionary.findLoop polys (areasOf polys) p
          (i :: rest) (false, 0, id0) =
          SimplePolygonDictionary.findLoop polys (areasOf polys) p rest
            (true, areaAt polys i, i) := by
        rw [findLoop_cons, if_pos hcov]
        simp only [Bool.not_false, Bool.true_or, if_true]
        rfl
      rw [hstep, findLoop_true]
      obtain ⟨hm, hcovm, hle, htie, hall⟩ :=
        bestFrom_char polys p rest i hcov hrest_lt hrest_pw
      refine ⟨rfl, hcovm, ?_, ?_⟩
      · rcases hm with hm' | hm'
        · rw [hm']; exact List.mem_cons_self _ _
        · exact List.mem_cons_of_mem _ hm'
      · intro j hj hcovj
        rcases List.mem_cons.1 hj with rfl | hj'
        · rcases lt_or_eq_of_le hle with h1 | h1
          · exact Or.inl h1
          · exact Or.inr ⟨h1, htie h1⟩
        · exact hall j hj' hcovj
    · have hstep : SimplePolygonDictionary.findLoop polys (areasOf polys) p
          (i :: rest) (false, 0, id0) =
          SimplePolygonDictionary.findLoop polys (areasOf polys) p rest
            (false, 0, id0) := by
        rw [findLoop_cons, if_neg hcov]
      rw [hstep]
      rcases ih hrest_pw with ⟨hres, hnone⟩ | ⟨h1, h2, h3, h4⟩
      · left
        refine ⟨hres, ?_⟩
        intro j hj
        rcases List.mem_cons.1 hj with rfl | hj'
        · exact Bool.eq_false_iff.2 hcov
        · exact hnone j hj'
      · right
        refine ⟨h1, h2, List.mem_cons_of_mem _ h3, ?_⟩
        intro j hj hcovj
        rcases List.mem_cons.1 hj with rfl | hj'
        · exact absurd hcovj hcov
        · exact h4 j hj' hcovj

/-- The linear locator meets the find contract. -/
lemma simpleFind_meets (polys : List MultiPolygon) (p : Point) (id0 : Nat) :
    FindSpec polys p id0 (SimplePolygonDictionary.find polys p id0) := by
  have h := findLoop_spec polys p id0 (List.range polys.length)
    (List.pairwise_lt_range _)
  unfold SimplePolygonDictionary.find
  rcases h with ⟨hres, hnone⟩ | ⟨h1, h2, h3, h4⟩
  · left
    constructor
    · rw [hres]
    · intro j hj
      exact hnone j (List.mem_range.2 hj)
  · right
    exact ⟨h1, List.mem_range.1 h3, h2,
      fun j hj hcov => h4 j (List.mem_range.2 hj) hcov⟩

/-! ### The ascending-area ordering -/

/-- Strict lexicographic order on (area, slot index): the order in which a
stable ascending-area sort of the identity permutation lists the slots. -/
def lexLt (areas : List ℚ) (i j : Nat) : Prop :=
  areas.getD i 0 < areas.getD j 0 ∨ (areas.getD i 0 = areas.getD j 0 ∧ i < j)

lemma insertByArea_perm (areas : List ℚ) (i : Nat) :
    ∀ acc : List Nat, (insertByArea areas i acc).Perm (i :: acc) := by
  intro acc
  induction acc with
  | nil => rfl
  | cons j rest ih =>
    unfold insertByArea
    by_cases h : areas.getD j 0 ≤ areas.getD i 0
    · simp only [h, decide_True, if_true]
      exact (ih.cons j).trans (List.Perm.swap i j rest)
    · simp only [h, decide_False, Bool.false_eq_true, if_false]
      exact List.Perm.refl _

lemma insertByArea_pairwise (areas : List ℚ) (i : Nat) :
    ∀ acc : List Nat, acc.Pairwise (lexLt areas) → (∀ j ∈ acc, j < i) →
    (insertByArea areas i acc).Pairwise (lexLt areas) := by
  intro acc
  induction acc with
  | nil =>
    intro _ _
    simp [insertByArea]
  | cons j rest ih =>
    intro hpw hlt
    unfold insertByArea
    by_cases h : areas.getD j 0 ≤ areas.getD i 0
    · simp only [h, decide_True, if_true]
      rw [List.pairwise_cons]
      refine ⟨?_, ih (List.Pairwise.of_cons hpw)
        (fun k hk => hlt k (List.mem_cons_of_mem j hk))⟩
      intro k hk
      have hk' : k = i ∨ k ∈ rest := by
        have := (insertByArea_perm areas i rest).mem_iff.1 hk
        simpa using this
      rcases hk' with rfl | hk'
      · rcases lt_or_eq_of_le h with h1 | h1
        · exact Or.inl h1
        · exact Or.inr ⟨h1, hlt j (List.mem_cons_self j rest)⟩
      · exact List.rel_of_pairwise_cons hpw hk'
    · simp only [h, decide_False, Bool.false_eq_true, if_false]
      rw [List.pairwise_cons]
      have hij : areas.getD i 0 < areas.getD j 0 := not_le.1 h
      refine ⟨?_, hpw⟩
      intro k hk
      rcases List.mem_cons.1 hk with rfl | hk'
      · exact Or.inl hij
      · have hjk := List.rel_of_pairwise_cons hpw hk'
        have : areas.getD j 0 ≤ areas.getD k 0 := by
          rcases hjk with h1 | ⟨h1, _⟩
          · exact le_of_lt h1
          · exact le_of_eq h1
        exact Or.inl (lt_of_lt_of_le hij this)

lemma buildOrder_foldl_invariant (areas : List ℚ) : ∀ n : Nat,
    ((List.range n).foldl (fun acc i => insertByArea areas i acc) []).Perm
        (List.range n) ∧
    ((List.range n).foldl (fun acc i => insertByArea areas i acc) []).Pairwise
        (lexLt areas) ∧
    ∀ j ∈ (List.range n).foldl (fun acc i => insertByArea areas i acc) [],
      j < n := by
  intro n
  induction n with
  | zero => simp
  | succ n ih =>
    obtain ⟨hperm, hpw, hbound⟩ := ih
    rw [List.range_succ, List.foldl_append]
    simp only [List.foldl_cons, List.foldl_nil]
    set acc := (List.range n).foldl (fun acc i => insertByArea areas i acc) []
      with hacc
    refine ⟨?_, ?_, ?_⟩
    · refine ((insertByArea_perm areas n acc).trans (hperm.cons n)).trans ?_
      exact (List.perm_append_singleton n (List.range n)).symm
    · exact insertByArea_pairwise areas n acc hpw hbound
    · intro j hj
      have := (insertByArea_perm areas n acc).mem_iff.1 hj
      rcases List.mem_cons.1 this with rfl | hj'
      · omega
      · exact Nat.lt_succ_of_lt (hbound j hj')

lemma buildOrder_perm (areas : List ℚ) :
    (buildOrder areas).Perm (List.range areas.length) :=
  (buildOrder_foldl_invariant areas areas.length).1

lemma buildOrder_pairwise (areas : List ℚ) :
    (buildOrder areas).Pairwise (lexLt areas) :=
  (buildOrder_foldl_invariant areas areas.length).2.1

lemma mem_buildOrder {areas : List ℚ} {j : Nat} :
    j ∈ buildOrder areas ↔ j < areas.length := by
  rw [(buildOrder_perm areas).mem_iff, List.mem_range]

/-! ### Correctness of the grid query -/

lemma Rect.containsPt_iff {r : Rect} {x y : ℚ} :
    r.containsPt x y = true ↔
      r.xmin ≤ x ∧ x ≤ r.xmax ∧ r.ymin ≤ y ∧ y ≤ r.ymax := by
  unfold Rect.containsPt
  simp [and_assoc]

/-- Descending the constructed grid from any rectangle containing the
point reaches a leaf whose rectangle contains the point and whose
candidate list is the ordered subsequence for that leaf rectangle. -/
lemma cellLocate_buildCell (polys : List MultiPolygon) (ordered : List Nat)
    (minInter : Nat) (p : Point) : ∀ (fuel : Nat) (r : Rect),
    r.containsPt p.x p.y = true →
    ∃ rl : Rect, rl.containsPt p.x p.y = true ∧
      cellLocate p (buildCell polys ordered minInter r fuel) =
        candidatesOf polys ordered rl := by
  intro fuel
  induction fuel with
  | zero =>
    intro r hr
    exact ⟨r, hr, rfl⟩
  | succ fuel ih =>
    intro r hr
    by_cases hsplit : minInter < (candidatesOf polys ordered r).length
    · have hb : buildCell polys ordered minInter r (fuel + 1) =
          Cell.node r
            (buildCell polys ordered minInter
              ⟨r.xmin, r.ymin, (r.xmin + r.xmax) / 2, (r.ymin + r.ymax) / 2⟩ fuel)
            (buildCell polys ordered minInter
              ⟨(r.xmin + r.xmax) / 2, r.ymin, r.xmax, (r.ymin + r.ymax) / 2⟩ fuel)
            (buildCell polys ordered minInter
              ⟨r.xmin, (r.ymin + r.ymax) / 2, (r.xmin + r.xmax) / 2, r.ymax⟩ fuel)
            (buildCell polys ordered minInter
              ⟨(r.xmin + r.xmax) / 2, (r.ymin + r.ymax) / 2, r.xmax, r.ymax⟩ fuel) := by
        show (if minInter < (candidatesOf polys ordered r).length then _ else _) = _
        rw [if_pos hsplit]
      obtain ⟨hx1, hx2, hy1, hy2⟩ := Rect.containsPt_iff.1 hr
      rw [hb]
      by_cases hpx : p.x < (r.xmin + r.xmax) / 2 <;>
        by_cases hpy : p.y < (r.ymin + r.ymax) / 2
      · simp only [cellLocate, hpx, hpy, decide_True, if_true]
        exact ih _ (Rect.containsPt_iff.2
          ⟨hx1, le_of_lt hpx, hy1, le_of_lt hpy⟩)
      · simp only [cellLocate, hpx, hpy, decide_True, decide_False, if_true,
          Bool.false_eq_true, if_false]
        exact ih _ (Rect.containsPt_iff.2
          ⟨hx1, le_of_lt hpx, not_lt.1 hpy, hy2⟩)
      · simp only [cellLocate, hpx, hpy, decide_True, decide_False, if_true,
          Bool.false_eq_true, if_false]
        exact ih _ (Rect.containsPt_iff.2
          ⟨not_lt.1 hpx, hx2, hy1, le_of_lt hpy⟩)
      · simp only [cellLocate, hpx, hpy, decide_False, Bool.false_eq_true,
          if_false]
        exact ih _ (Rect.containsPt_iff.2
          ⟨not_lt.1 hpx, hx2, not_lt.1 hpy, hy2⟩)
    · have hb : buildCell polys ordered minInter r (fuel + 1) =
          Cell.leaf r (candidatesOf polys ordered r) := by
        show (if minInter < (candidatesOf polys ordered r).length then _ else _) = _
        rw [if_neg hsplit]
      rw [hb]
      exact ⟨r, hr, rfl⟩

/-- Scanning an area-ordered, containment-complete candidate list for the
first covering entry meets the find contract. -/
lemma scanCandidates_spec (polys : List MultiPolygon) (p : Point) :
    ∀ (ids : List Nat) (id0 : Nat),
    ids.Pairwise (lexLt (areasOf polys)) →
    (∀ j, j < polys.length → covers polys p j = true → j ∈ ids) →
    (∀ c ∈ ids, c < polys.length) →
    FindSpec polys p id0 (scanCandidates polys p ids id0) := by
  intro ids
  induction ids with
  | nil =>
    intro id0 _ hcomplete _
    left
    refine ⟨rfl, ?_⟩
    intro j hj
    cases hcov : covers polys p j
    · rfl
    · exact absurd (hcomplete j hj hcov) (List.not_mem_nil j)
  | cons c rest ih =>
    intro id0 hpw hcomplete hbound
    by_cases hcov : coveredBy p (polys.getD c []) = true
    · have hres : scanCandidates polys p (c :: rest) id0 = (true, c) := by
        unfold scanCandidates
        rw [if_pos hcov]
      rw [hres]
      right
      refine ⟨rfl, hbound c (List.mem_cons_self c rest), hcov, ?_⟩
      intro j hj hcovj
      rcases List.mem_cons.1 (hcomplete j hj hcovj) with rfl | hjr
      · exact Or.inr ⟨rfl, le_refl _⟩
      · rcases List.rel_of_pairwise_cons hpw hjr with h1 | ⟨h1, h2⟩
        · exact Or.inl h1
        · exact Or.inr ⟨h1, le_of_lt h2⟩
    · have hres : scanCandidates polys p (c :: rest) id0 =
          scanCandidates polys p rest id0 := by
        show (if coveredBy p (polys.getD c []) = true then ((true : Bool), c)
          else scanCandidates polys p rest id0) =
            scanCandidates polys p rest id0
        rw [if_neg hcov]
      rw [hres]
      refine ih id0 (List.Pairwise.of_cons hpw) ?_
        (fun k hk => hbound k (List.mem_cons_of_mem c hk))
      intro j hj hcovj
      rcases List.mem_cons.1 (hcomplete j hj hcovj) with rfl | hjr
      · exact absurd hcovj hcov
      · exact hjr

/-- Scanning an area-ordered (ties in either order), containment-complete
candidate list for the first covering entry meets the weak find
contract. -/
lemma scanCandidates_weak_spec (polys : List MultiPolygon) (p : Point) :
    ∀ (ids : List Nat) (id0 : Nat),
    ids.Pairwise (fun i j => areaAt polys i ≤ areaAt polys j) →
    (∀ j, j < polys.length → covers polys p j = true → j ∈ ids) →
    (∀ c ∈ ids, c < polys.length) →
    FindSpecWeak polys p id0 (scanCandidates polys p ids id0) := by
  intro ids
  induction ids with
  | nil =>
    intro id0 _ hcomplete _
    left
    refine ⟨rfl, ?_⟩
    intro j hj
    cases hcov : covers polys p j
    · rfl
    · exact absurd (hcomplete j hj hcov) (List.not_mem_nil j)
  | cons c rest ih =>
    intro id0 hpw hcomplete hbound
    by_cases hcov : coveredBy p (polys.getD c []) = true
    · have hres : scanCandidates polys p (c :: rest) id0 = (true, c) := by
        unfold scanCandidates
        rw [if_pos hcov]
      rw [hres]
      right
      refine ⟨rfl, hbound c (List.mem_cons_self c rest), hcov, ?_⟩
      intro j hj hcovj
      rcases List.mem_cons.1 (hcomplete j hj hcovj) with rfl | hjr
      · exact le_refl _
      · exact List.rel_of_pairwise_cons hpw hjr
    · have hres : scanCandidates polys p (c :: rest) id0 =
          scanCandidates polys p rest id0 := by
        show (if coveredBy p (polys.getD c []) = true then ((true : Bool), c)
          else scanCandidates polys p rest id0) =
            scanCandidates polys p rest id0
        rw [if_neg hcov]
      rw [hres]
      refine ih id0 (List.Pairwise.of_cons hpw) ?_
        (fun k hk => hbound k (List.mem_cons_of_mem c hk))
      intro j hj hcovj
      rcases List.mem_cons.1 (hcomplete j hj hcovj) with rfl | hjr
      · exact absurd hcovj hcov
      · exact hjr

/-- GridPolygonDictionary::find as a function of the order array produced
by the constructor's sort, so that properties can be stated for every
sort outcome the source permits. -/
def gridFindWith (polys : List MultiPolygon) (ord : List Nat)
    (minInter maxDepth : Nat) (p : Point) (id0 : Nat) : Bool × Nat :=
  if (rootRect polys).containsPt p.x p.y then
    scanCandidates polys p
      (cellLocate p (buildCell polys ord minInter (rootRect polys) maxDepth))
      id0
  else (false, id0)

/-- The embedded grid dictionary is the instance of gridFindWith at the
buildOrder instance of the sort. -/
lemma gridFind_eq_gridFindWith (d : GridDict) (p : Point) (id0 : Nat) :
    GridPolygonDictionary.find d p id0 =
      gridFindWith d.polys d.order d.minInter d.maxDepth p id0 := by
  by_cases h : (rootRect d.polys).containsPt p.x p.y = true
  · have hl : d.locate p.x p.y = some (cellLocate p d.root) := by
      unfold GridDict.locate
      rw [if_pos h]
    unfold GridPolygonDictionary.find
    rw [hl]
    unfold gridFindWith
    rw [if_pos h]
    rfl
  · have hl : d.locate p.x p.y = none := by
      unfold GridDict.locate
      rw [if_neg h]
    unfold GridPolygonDictionary.find
    rw [hl]
    unfold gridFindWith
    rw [if_neg h]

/-- The postcondition the C++ standard gives for the std::sort call in the
GridPolygonDictionary constructor: the order array is a permutation of
all slots that is nondecreasing in area.  The relative order of slots
with exactly equal areas is unspecified. -/
def validOrder (polys : List MultiPolygon) (ord : List Nat) : Prop :=
  ord.Perm (List.range polys.length) ∧
  ord.Pairwise (fun i j => areaAt polys i ≤ areaAt polys j)

/-- The embedded instance of the sort satisfies the std::sort
postcondition. -/
lemma buildOrder_validOrder (polys : List MultiPolygon) :
    validOrder polys (buildOrder (areasOf polys)) := by
  constructor
  · have h := buildOrder_perm (areasOf polys)
    rwa [show (areasOf polys).length = polys.length from by simp [areasOf]]
      at h
  · refine (buildOrder_pairwise (areasOf polys)).imp ?_
    intro i j hij
    rcases hij with h | ⟨h, _⟩
    · exact le_of_lt h
    · exact le_of_eq h

/-- For an order that is moreover sorted by (area, slot index) — as a
stable sort produces — the grid query meets the full find contract. -/
lemma gridFindWith_meets (polys : List MultiPolygon) (ord : List Nat)
    (minInter maxDepth : Nat) (p : Point) (id0 : Nat)
    (hperm : ord.Perm (List.range polys.length))
    (hpw : ord.Pairwise (lexLt (areasOf polys))) :
    FindSpec polys p id0 (gridFindWith polys ord minInter maxDepth p id0) := by
  unfold gridFindWith
  by_cases hroot : (rootRect polys).containsPt p.x p.y = true
  · rw [if_pos hroot]
    obtain ⟨rl, hrl, hloc⟩ := cellLocate_buildCell polys ord minInter
      p maxDepth (rootRect polys) hroot
    rw [hloc]
    refine scanCandidates_spec polys p _ id0 ?_ ?_ ?_
    · exact List.Pairwise.sublist (List.filter_sublist _) hpw
    · intro j hj hcov
      unfold candidatesOf
      rw [List.mem_filter]
      constructor
      · rw [hperm.mem_iff, List.mem_range]
        exact hj
      · obtain ⟨b, hb, hbc⟩ := coveredBy_polyBbox hcov
        simp only [hb]
        show b.intersects rl = true
        obtain ⟨hb1, hb2, hb3, hb4⟩ := Rect.containsPt_iff.1 hbc
        obtain ⟨hr1, hr2, hr3, hr4⟩ := Rect.containsPt_iff.1 hrl
        unfold Rect.intersects
        simp only [Bool.and_eq_true, decide_eq_true_eq]
        exact ⟨⟨⟨le_trans hb1 hr2, le_trans hr1 hb2⟩, le_trans hb3 hr4⟩,
          le_trans hr3 hb4⟩
    · intro c hc
      have hc' := (List.mem_filter.1 hc).1
      rw [hperm.mem_iff, List.mem_range] at hc'
      exact hc'
  · rw [if_neg hroot]
    left
    refine ⟨rfl, ?_⟩
    intro j hj
    cases hcov : covers polys p j
    · rfl
    · exact absurd (coveredBy_rootRect hj hcov) hroot

/-- For every sort outcome the source permits, the grid query meets the
weak find contract: same found/not-found outcome, and a covering slot of
minimal area when found. -/
lemma gridFindWith_meets_weak (polys : List MultiPolygon) (ord : List Nat)
    (minInter maxDepth : Nat) (p : Point) (id0 : Nat)
    (hord : validOrder polys ord) :
    FindSpecWeak polys p id0
      (gridFindWith polys ord minInter maxDepth p id0) := by
  obtain ⟨hperm, hpw⟩ := hord
  unfold gridFindWith
  by_cases hroot : (rootRect polys).containsPt p.x p.y = true
  · rw [if_pos hroot]
    obtain ⟨rl, hrl, hloc⟩ := cellLocate_buildCell polys ord minInter
      p maxDepth (rootRect polys) hroot
    rw [hloc]
    refine scanCandidates_weak_spec polys p _ id0 ?_ ?_ ?_
    · exact List.Pairwise.sublist (List.filter_sublist _) hpw
    · intro j hj hcov
      unfold candidatesOf
      rw [List.mem_filter]
      constructor
      · rw [hperm.mem_iff, List.mem_range]
        exact hj
      · obtain ⟨b, hb, hbc⟩ := coveredBy_polyBbox hcov
        simp only [hb]
        show b.intersects rl = true
        obtain ⟨hb1, hb2, hb3, hb4⟩ := Rect.containsPt_iff.1 hbc
        obtain ⟨hr1, hr2, hr3, hr4⟩ := Rect.containsPt_iff.1 hrl
        unfold Rect.intersects
        simp only [Bool.and_eq_true, decide_eq_true_eq]
        exact ⟨⟨⟨le_trans hb1 hr2, le_trans hr1 hb2⟩, le_trans hb3 hr4⟩,
          le_trans hr3 hb4⟩
    · intro c hc
      have hc' := (List.mem_filter.1 hc).1
      rw [hperm.mem_iff, List.mem_range] at hc'
      exact hc'
  · rw [if_neg hroot]
    left
    refine ⟨rfl, ?_⟩
    intro j hj
    cases hcov : covers polys p j
    · rfl
    · exact absurd (coveredBy_rootRect hj hcov) hroot

/-- The embedded grid locator (at the buildOrder sort instance) meets the
full find contract. -/
lemma gridFind_meets (d : GridDict) (p : Point) (id0 : Nat) :
    FindSpec d.polys p id0 (GridPolygonDictionary.find d p id0) := by
  rw [gridFind_eq_gridFindWith]
  refine gridFindWith_meets d.polys d.order d.minInter d.maxDepth p id0 ?_ ?_
  · have h := buildOrder_perm (areasOf d.polys)
    rwa [show (areasOf d.polys).length = d.polys.length from by
      simp [areasOf]] at h
  · exact buildOrder_pairwise (areasOf d.polys)

/-! ### Leaf candidate lists of the grid tree -/

/-- All leaf candidate lists of a grid cell tree. -/
def leafLists : Cell → List (List Nat)
  | Cell.leaf _ ids => [ids]
  | Cell.node _ c00 c10 c01 c11 =>
    leafLists c00 ++ leafLists c10 ++ leafLists c01 ++ leafLists c11

lemma leafLists_buildCell (polys : List MultiPolygon) (ordered : List Nat)
    (minInter : Nat) : ∀ (fuel : Nat) (r : Rect),
    ∀ ids ∈ leafLists (buildCell polys ordered minInter r fuel),
    ∃ rl, ids = candidatesOf polys ordered rl := by
  intro fuel
  induction fuel with
  | zero =>
    intro r ids hids
    have : ids ∈ [candidatesOf polys ordered r] := hids
    rw [List.mem_singleton] at this
    exact ⟨r, this⟩
  | succ fuel ih =>
    intro r ids hids
    by_cases hsplit : minInter < (candidatesOf polys ordered r).length
    · have hb : buildCell polys ordered minInter r (fuel + 1) =
          Cell.node r
            (buildCell polys ordered minInter
              ⟨r.xmin, r.ymin, (r.xmin + r.xmax) / 2, (r.ymin + r.ymax) / 2⟩ fuel)
            (buildCell polys ordered minInter
              ⟨(r.xmin + r.xmax) / 2, r.ymin, r.xmax, (r.ymin + r.ymax) / 2⟩ fuel)
            (buildCell polys ordered minInter
              ⟨r.xmin, (r.ymin + r.ymax) / 2, (r.xmin + r.xmax) / 2, r.ymax⟩ fuel)
            (buildCell polys ordered minInter
              ⟨(r.xmin + r.xmax) / 2, (r.ymin + r.ymax) / 2, r.xmax, r.ymax⟩ fuel) := by
        show (if minInter < (candidatesOf polys ordered r).length then _ else _) = _
        rw [if_pos hsplit]
      rw [hb] at hids
      unfold leafLists at hids
      rcases List.mem_append.1 hids with h1 | h1
      · rcases List.mem_append.1 h1 with h2 | h2
        · rcases List.mem_append.1 h2 with h3 | h3
          · exact ih _ ids h3
          · exact ih _ ids h3
        · exact ih _ ids h2
      · exact ih _ ids h1
    · have hb : buildCell polys ordered minInter r (fuel + 1) =
          Cell.leaf r (candidatesOf polys ordered r) := by
        show (if minInter < (candidatesOf polys ordered r).length then _ else _) = _
        rw [if_neg hsplit]
      rw [hb] at hids
      have : ids ∈ [candidatesOf polys ordered r] := hids
      rw [List.mem_singleton] at this
      exact ⟨r, this⟩

/-! ### Concrete geometry of the specification scenario -/

/-- Polygon A of the spec's concrete scenario: the 10 by 10 square with
area 100, bound to external id 1 and stored in slot 0. -/
def polyA : MultiPolygon :=
  [⟨[⟨0, 0⟩, ⟨0, 10⟩, ⟨10, 10⟩, ⟨10, 0⟩], []⟩]

/-- Polygon B of the spec's concrete scenario: the 2 by 2 square with
area 4, bound to external id 2 and stored in slot 1, nested inside A. -/
def polyB : MultiPolygon :=
  [⟨[⟨2, 2⟩, ⟨2, 4⟩, ⟨4, 4⟩, ⟨4, 2⟩], []⟩]

/-- First square of the equal-area tie scenario (area 4, slot 0). -/
def tieP0 : MultiPolygon :=
  [⟨[⟨0, 0⟩, ⟨0, 2⟩, ⟨2, 2⟩, ⟨2, 0⟩], []⟩]

/-- Second square of the equal-area tie scenario (area 4, slot 1),
overlapping the first. -/
def tieP1 : MultiPolygon :=
  [⟨[⟨1, 0⟩, ⟨1, 2⟩, ⟨3, 2⟩, ⟨3, 0⟩], []⟩]

/-- The reversed order of the two tie squares is a sort outcome the
constructor's std::sort permits: a sorted permutation of the slots. -/
lemma validOrder_tie_swapped : validOrder [tieP0, tieP1] [1, 0] := by
  refine ⟨?_, ?_⟩
  · have h2 : List.range ([tieP0, tieP1] : List MultiPolygon).length =
        [0, 1] := rfl
    rw [h2]
    exact List.Perm.swap 0 1 []
  · norm_num [List.pairwise_cons, areaAt, areasOf, multiArea, simpleArea, ringArea, ratAbs, shoelace, crossSum,
      edgeCross,
      tieP0, tieP1]

/-- The only area-sorted order of the concrete scenario's polygons (B has
the strictly smaller area). -/
lemma validOrder_scenario_swapped : validOrder [polyA, polyB] [1, 0] := by
  refine ⟨?_, ?_⟩
  · have h2 : List.range ([polyA, polyB] : List MultiPolygon).length =
        [0, 1] := rfl
    rw [h2]
    exact List.Perm.swap 0 1 []
  · norm_num [List.pairwise_cons, areaAt, areasOf, multiArea, simpleArea, ringArea, ratAbs, shoelace, crossSum,
      edgeCross,
      polyA, polyB]

/-! ### Claim theorems -/

/-- Claim C1 counterexample: the constructor sorts the order array with
std::sort, whose only guarantee is a sorted permutation (validOrder); the
order [1, 0] of the two equal-area tie squares satisfies that guarantee,
yet for the query point (3/2, 1), strictly inside the bounding rectangle,
the grid locator built on it answers slot 1 while the linear locator
answers slot 0 — so the program does not guarantee identical results on
exact-area ties. -/
theorem grid_linear_divergence_on_equal_area_tie :
    validOrder [tieP0, tieP1] [1, 0] ∧
    (rootRect [tieP0, tieP1]).strictContains (3/2) 1 = true ∧
    SimplePolygonDictionary.find [tieP0, tieP1] ⟨3/2, 1⟩ 7 = (true, 0) ∧
    gridFindWith [tieP0, tieP1] [1, 0] 0 0 ⟨3/2, 1⟩ 7 = (true, 1) ∧
    gridFindWith [tieP0, tieP1] [1, 0] 0 0 ⟨3/2, 1⟩ 7 ≠
      SimplePolygonDictionary.find [tieP0, tieP1] ⟨3/2, 1⟩ 7 := by
  refine ⟨validOrder_tie_swapped, ?_, ?_, ?_, ?_⟩
  · norm_num [Rect.strictContains, rootRect, bboxOfPoints, expandRect,
      allPoints, min_def, max_def, tieP0, tieP1]
  · norm_num [SimplePolygonDictionary.find, SimplePolygonDictionary.findLoop, areasOf,
      multiArea, simpleArea, ringArea, ratAbs, shoelace, crossSum, edgeCross,
      coveredBy, coveredBySimple, inRingClosed, inRingOpen, onRingBoundary,
      onSegment, ringEdges, crossingCount, crossesRay, yStraddles, aboveLine,
      rayIntersectX, covers, areaAt, min_def, max_def, List.countP_cons,
      List.range_succ, List.range_zero, List.getD_cons_zero,
      List.getD_cons_succ, tieP0, tieP1]
  · norm_num [gridFindWith, buildCell, cellLocate, candidatesOf, scanCandidates,
      rootRect, bboxOfPoints, expandRect, allPoints, polyBbox,
      Rect.containsPt, Rect.intersects, List.filter,
      SimplePolygonDictionary.find, SimplePolygonDictionary.findLoop, areasOf,
      multiArea, simpleArea, ringArea, ratAbs, shoelace, crossSum, edgeCross,
      coveredBy, coveredBySimple, inRingClosed, inRingOpen, onRingBoundary,
      onSegment, ringEdges, crossingCount, crossesRay, yStraddles, aboveLine,
      rayIntersectX, covers, areaAt, min_def, max_def, List.countP_cons,
      List.range_succ, List.range_zero, List.getD_cons_zero,
      List.getD_cons_succ, tieP0, tieP1]
  · norm_num [gridFindWith, buildCell, cellLocate, candidatesOf, scanCandidates,
      rootRect, bboxOfPoints, expandRect, allPoints, polyBbox,
      Rect.containsPt, Rect.intersects, List.filter,
      SimplePolygonDictionary.find, SimplePolygonDictionary.findLoop, areasOf,
      multiArea, simpleArea, ringArea, ratAbs, shoelace, crossSum, edgeCross,
      coveredBy, coveredBySimple, inRingClosed, inRingOpen, onRingBoundary,
      onSegment, ringEdges, crossingCount, crossesRay, yStraddles, aboveLine,
      rayIntersectX, covers, areaAt, min_def, max_def, List.countP_cons,
      List.range_succ, List.range_zero, List.getD_cons_zero,
      List.getD_cons_succ, tieP0, tieP1]

/-- Claim C1 (amended): for every polygon set, every order array
satisfying the constructor's sort postcondition, and every query point
strictly inside the bounding rectangle of the polygon set, the grid
locator's find returns the same found/not-found outcome as the linear
locator's find; when found it returns a covering slot of the same
(minimal) area, and the identical slot whenever no distinct covering slot
shares that minimal area.  The slot can differ from the linear locator's
only on exact-area ties, whose relative order the constructor's std::sort
leaves unspecified. -/
theorem grid_find_matches_linear_up_to_ties (polys : List MultiPolygon)
    (ord : List Nat) (minInter maxDepth : Nat) (p : Point) (id0 : Nat)
    (hord : validOrder polys ord)
    (h : (rootRect polys).strictContains p.x p.y = true) :
    (gridFindWith polys ord minInter maxDepth p id0).1 =
      (SimplePolygonDictionary.find polys p id0).1 ∧
    ((SimplePolygonDictionary.find polys p id0).1 = true →
      (gridFindWith polys ord minInter maxDepth p id0).2 < polys.length ∧
      covers polys p (gridFindWith polys ord minInter maxDepth p id0).2 =
        true ∧
      areaAt polys (gridFindWith polys ord minInter maxDepth p id0).2 =
        areaAt polys (SimplePolygonDictionary.find polys p id0).2) ∧
    ((∀ j < polys.length, covers polys p j = true →
        areaAt polys j =
          areaAt polys (SimplePolygonDictionary.find polys p id0).2 →
        j = (SimplePolygonDictionary.find polys p id0).2) →
      gridFindWith polys ord minInter maxDepth p id0 =
        SimplePolygonDictionary.find polys p id0) := by
  have hl := simpleFind_meets polys p id0
  have hg := gridFindWith_meets_weak polys ord minInter maxDepth p id0 hord
  rcases hl with ⟨hlres, hlnone⟩ | ⟨hl1, hllt, hlcov, hlall⟩
  · rcases hg with ⟨hgres, _⟩ | ⟨_, hglt, hgcov, _⟩
    · refine ⟨?_, ?_, ?_⟩
      · rw [hgres, hlres]
      · intro habs
        rw [hlres] at habs
        exact absurd habs (by simp)
      · intro _
        rw [hgres, hlres]
    · rw [hlnone _ hglt] at hgcov
      exact absurd hgcov (by simp)
  · rcases hg with ⟨hgres, hgnone⟩ | ⟨hg1, hglt, hgcov, hgall⟩
    · rw [hgnone _ hllt] at hlcov
      exact absurd hlcov (by simp)
    · have harea : areaAt polys
          (gridFindWith polys ord minInter maxDepth p id0).2 =
          areaAt polys (SimplePolygonDictionary.find polys p id0).2 := by
        refine le_antisymm (hgall _ hllt hlcov) ?_
        rcases hlall _ hglt hgcov with h2 | ⟨h2, _⟩
        · exact le_of_lt h2
        · exact le_of_eq h2
      refine ⟨hg1.trans hl1.symm, fun _ => ⟨hglt, hgcov, harea⟩, ?_⟩
      intro huniq
      have hv := huniq _ hglt hgcov harea
      rw [Prod.ext_iff]
      exact ⟨hg1.trans hl1.symm, hv⟩

theorem grid_find_matches_linear_up_to_ties_witness :
    (gridFindWith [polyA, polyB] [1, 0] 0 0 ⟨3, 3⟩ 7).1 =
      (SimplePolygonDictionary.find [polyA, polyB] ⟨3, 3⟩ 7).1 :=
  (grid_find_matches_linear_up_to_ties [polyA, polyB] [1, 0] 0 0 ⟨3, 3⟩ 7
    validOrder_scenario_swapped (by decide)).1

/-- Claim C2: the linear locator's find returns true exactly when some slot
covers the point; in that case the returned id is a covering slot of
minimal area, exact-area ties resolved to the first slot in slot order. -/
theorem linear_find_correct (polys : List MultiPolygon) (p : Point)
    (id0 : Nat) :
    ((SimplePolygonDictionary.find polys p id0).1 = false ↔
      ∀ j < polys.length, covers polys p j = false) ∧
    ((SimplePolygonDictionary.find polys p id0).1 = true →
      (SimplePolygonDictionary.find polys p id0).2 < polys.length ∧
      covers polys p (SimplePolygonDictionary.find polys p id0).2 = true ∧
      ∀ j < polys.length, covers polys p j = true →
        areaAt polys (SimplePolygonDictionary.find polys p id0).2 ≤
            areaAt polys j ∧
        (areaAt polys (SimplePolygonDictionary.find polys p id0).2 =
            areaAt polys j →
          (SimplePolygonDictionary.find polys p id0).2 ≤ j)) := by
  have h := simpleFind_meets polys p id0
  constructor
  · constructor
    · intro hfalse
      rcases h with ⟨_, hnone⟩ | ⟨h1, _, _, _⟩
      · exact hnone
      · rw [h1] at hfalse
        exact absurd hfalse (by simp)
    · intro hnone
      rcases h with ⟨hres, _⟩ | ⟨h1, hlt, hcov, _⟩
      · rw [hres]
      · rw [hnone _ hlt] at hcov
        exact absurd hcov (by simp)
  · intro htrue
    rcases h with ⟨hres, _⟩ | ⟨h1, hlt, hcov, hall⟩
    · rw [hres] at htrue
      exact absurd htrue (by simp)
    · refine ⟨hlt, hcov, ?_⟩
      intro j hj hcovj
      rcases hall j hj hcovj with h2 | ⟨h2, h3⟩
      · exact ⟨le_of_lt h2, fun he => absurd he (ne_of_lt h2)⟩
      · exact ⟨le_of_eq h2, fun _ => h3⟩

theorem linear_find_correct_witness :
    (SimplePolygonDictionary.find [polyA, polyB] ⟨3, 3⟩ 5).1 = true ∧
    covers [polyA, polyB] ⟨3, 3⟩
      (SimplePolygonDictionary.find [polyA, polyB] ⟨3, 3⟩ 5).2 = true :=
  ⟨by norm_num [SimplePolygonDictionary.find, SimplePolygonDictionary.findLoop, areasOf,
    multiArea, simpleArea, ringArea, ratAbs, shoelace, crossSum, edgeCross,
    coveredBy, coveredBySimple, inRingClosed, inRingOpen, onRingBoundary,
    onSegment, ringEdges, crossingCount, crossesRay, yStraddles, aboveLine,
    rayIntersectX, covers, areaAt, min_def, max_def, List.countP_cons,
    List.range_succ, List.range_zero, List.getD_cons_zero, List.getD_cons_succ, polyA, polyB],
    ((linear_find_correct [polyA, polyB] ⟨3, 3⟩ 5).2
      (by norm_num [SimplePolygonDictionary.find, SimplePolygonDictionary.findLoop, areasOf,
    multiArea, simpleArea, ringArea, ratAbs, shoelace, crossSum, edgeCross,
    coveredBy, coveredBySimple, inRingClosed, inRingOpen, onRingBoundary,
    onSegment, ringEdges, crossingCount, crossesRay, yStraddles, aboveLine,
    rayIntersectX, covers, areaAt, min_def, max_def, List.countP_cons,
    List.range_succ, List.range_zero, List.getD_cons_zero, List.getD_cons_succ, polyA, polyB])).2.1⟩

/-- Claim C3 counterexample: the two equal-area squares both cover the
query point, and the order [1, 0] satisfies everything the constructor's
std::sort guarantees, yet the grid locator built on it resolves the tie
to the polygon inserted second — the source gives the grid locator no
first-inserted guarantee on exact-area ties. -/
theorem grid_tie_not_first_inserted :
    multiArea tieP0 = multiArea tieP1 ∧
    coveredBy ⟨3/2, 1⟩ tieP0 = true ∧
    coveredBy ⟨3/2, 1⟩ tieP1 = true ∧
    validOrder [tieP0, tieP1] [1, 0] ∧
    gridFindWith [tieP0, tieP1] [1, 0] 1 1 ⟨3/2, 1⟩ 5 = (true, 1) := by
  refine ⟨?_, ?_, ?_, validOrder_tie_swapped, ?_⟩
  · norm_num [multiArea, simpleArea, ringArea, ratAbs, shoelace, crossSum,
      edgeCross, tieP0, tieP1]
  · norm_num [coveredBy, coveredBySimple, inRingClosed, inRingOpen,
      onRingBoundary, onSegment, ringEdges, crossingCount, crossesRay,
      yStraddles, aboveLine, rayIntersectX, min_def, max_def,
      List.countP_cons, tieP0]
  · norm_num [coveredBy, coveredBySimple, inRingClosed, inRingOpen,
      onRingBoundary, onSegment, ringEdges, crossingCount, crossesRay,
      yStraddles, aboveLine, rayIntersectX, min_def, max_def,
      List.countP_cons, tieP1]
  · norm_num [gridFindWith, buildCell, cellLocate, candidatesOf, scanCandidates,
      rootRect, bboxOfPoints, expandRect, allPoints, polyBbox,
      Rect.containsPt, Rect.intersects, List.filter,
      SimplePolygonDictionary.find, SimplePolygonDictionary.findLoop, areasOf,
      multiArea, simpleArea, ringArea, ratAbs, shoelace, crossSum, edgeCross,
      coveredBy, coveredBySimple, inRingClosed, inRingOpen, onRingBoundary,
      onSegment, ringEdges, crossingCount, crossesRay, yStraddles, aboveLine,
      rayIntersectX, covers, areaAt, min_def, max_def, List.countP_cons,
      List.range_succ, List.range_zero, List.getD_cons_zero,
      List.getD_cons_succ, tieP0, tieP1]

/-- Claim C3 (amended): for a polygon set of two polygons of exactly
equal area both containing the query point, the linear locator always
resolves to the polygon inserted first and — both locators being pure
functions of the build inputs — each outcome is identical across repeated
builds from the same inputs; the grid locator resolves to one of the two
tied polygons, and to the first-inserted one exactly when the build's
sort placed the equal-area slots in insertion order, which std::sort does
not promise. -/
theorem equal_area_tie_linear_first_grid_sort_dependent
    (P0 P1 : MultiPolygon) (q : Point) (id0 minInter maxDepth : Nat)
    (ord : List Nat)
    (harea : multiArea P0 = multiArea P1)
    (h0 : coveredBy q P0 = true) (h1 : coveredBy q P1 = true)
    (hord : validOrder [P0, P1] ord) :
    SimplePolygonDictionary.find [P0, P1] q id0 = (true, 0) ∧
    (gridFindWith [P0, P1] ord minInter maxDepth q id0 = (true, 0) ∨
      gridFindWith [P0, P1] ord minInter maxDepth q id0 = (true, 1)) ∧
    (ord = [0, 1] →
      gridFindWith [P0, P1] ord minInter maxDepth q id0 = (true, 0)) ∧
    (ord = [1, 0] →
      gridFindWith [P0, P1] ord minInter maxDepth q id0 = (true, 1)) := by
  have hspec : FindSpec [P0, P1] q id0 ((true : Bool), 0) := by
    right
    refine ⟨rfl, by norm_num, h0, ?_⟩
    intro j hj hcovj
    have hj2 : j = 0 ∨ j = 1 := by
      have : j < 2 := by simpa using hj
      omega
    rcases hj2 with rfl | rfl
    · exact Or.inr ⟨rfl, le_refl 0⟩
    · refine Or.inr ⟨?_, by norm_num⟩
      show (areasOf [P0, P1]).getD 0 0 = (areasOf [P0, P1]).getD 1 0
      simp [areasOf, harea]
  refine ⟨FindSpec_unique (simpleFind_meets [P0, P1] q id0) hspec,
    ?_, ?_, ?_⟩
  · rcases gridFindWith_meets_weak [P0, P1] ord minInter maxDepth q id0
      hord with ⟨_, hnone⟩ | ⟨hg1, hglt, _, _⟩
    · have hc := hnone 0 (by norm_num)
      rw [show covers [P0, P1] q 0 = coveredBy q P0 from rfl, h0] at hc
      exact absurd hc (by simp)
    · have hj2 : (gridFindWith [P0, P1] ord minInter maxDepth q id0).2 = 0 ∨
          (gridFindWith [P0, P1] ord minInter maxDepth q id0).2 = 1 := by
        have h2 : (gridFindWith [P0, P1] ord minInter maxDepth q id0).2 <
            2 := by simpa using hglt
        omega
      have hres : gridFindWith [P0, P1] ord minInter maxDepth q id0 =
          ((true : Bool),
            (gridFindWith [P0, P1] ord minInter maxDepth q id0).2) := by
        rw [Prod.ext_iff]
        exact ⟨hg1, rfl⟩
      rcases hj2 with hv | hv
      · left
        rw [hres, hv]
      · right
        rw [hres, hv]
  · intro hordeq
    subst hordeq
    have hpw : ([0, 1] : List Nat).Pairwise (lexLt (areasOf [P0, P1])) := by
      refine List.pairwise_cons.2 ⟨?_,
        List.pairwise_cons.2 ⟨?_, List.Pairwise.nil⟩⟩
      · intro j hj
        rw [List.mem_singleton] at hj
        subst hj
        refine Or.inr ⟨?_, by norm_num⟩
        show (areasOf [P0, P1]).getD 0 0 = (areasOf [P0, P1]).getD 1 0
        simp [areasOf, harea]
      · intro j hj
        exact absurd hj (List.not_mem_nil j)
    have hperm : ([0, 1] : List Nat).Perm
        (List.range ([P0, P1] : List MultiPolygon).length) := by
      have h2 : List.range ([P0, P1] : List MultiPolygon).length =
          [0, 1] := rfl
      rw [h2]
    exact FindSpec_unique
      (gridFindWith_meets [P0, P1] [0, 1] minInter maxDepth q id0 hperm hpw)
      hspec
  · intro hordeq
    subst hordeq
    have h0c : covers [P0, P1] q 0 = true := h0
    have hroot : (rootRect [P0, P1]).containsPt q.x q.y = true :=
      coveredBy_rootRect (by norm_num) h0c
    unfold gridFindWith
    rw [if_pos hroot]
    obtain ⟨rl, hrl, hloc⟩ := cellLocate_buildCell [P0, P1] [1, 0] minInter
      q maxDepth (rootRect [P0, P1]) hroot
    rw [hloc]
    have hint : ∀ i : Nat, coveredBy q ([P0, P1].getD i []) = true →
        (match polyBbox ([P0, P1].getD i []) with
          | some b => b.intersects rl
          | none => false) = true := by
      intro i hci
      obtain ⟨b, hb, hbc⟩ := coveredBy_polyBbox hci
      simp only [hb]
      show b.intersects rl = true
      obtain ⟨hb1, hb2, hb3, hb4⟩ := Rect.containsPt_iff.1 hbc
      obtain ⟨hr1, hr2, hr3, hr4⟩ := Rect.containsPt_iff.1 hrl
      unfold Rect.intersects
      simp only [Bool.and_eq_true, decide_eq_true_eq]
      exact ⟨⟨⟨le_trans hb1 hr2, le_trans hr1 hb2⟩, le_trans hb3 hr4⟩,
        le_trans hr3 hb4⟩
    have hcand : candidatesOf [P0, P1] [1, 0] rl = [1, 0] := by
      unfold candidatesOf
      rw [List.filter_eq_self]
      intro i hi
      rcases List.mem_cons.1 hi with rfl | hi2
      · exact hint 1 h1
      · rw [List.mem_singleton] at hi2
        subst hi2
        exact hint 0 h0
    rw [hcand]
    show (if coveredBy q ([P0, P1].getD 1 []) = true then ((true : Bool), 1)
      else scanCandidates [P0, P1] q [0] id0) = ((true : Bool), 1)
    have h1c : coveredBy q ([P0, P1].getD 1 []) = true := h1
    rw [if_pos h1c]

theorem equal_area_tie_linear_first_grid_sort_dependent_witness :
    SimplePolygonDictionary.find [tieP0, tieP1] ⟨3/2, 1⟩ 9 = (true, 0) ∧
    gridFindWith [tieP0, tieP1] [1, 0] 0 1 ⟨3/2, 1⟩ 9 = (true, 1) :=
  ⟨(equal_area_tie_linear_first_grid_sort_dependent tieP0 tieP1 ⟨3/2, 1⟩
      9 0 1 [1, 0]
      (by norm_num [multiArea, simpleArea, ringArea, ratAbs, shoelace, crossSum,
      edgeCross, tieP0, tieP1])
      (by norm_num [coveredBy, coveredBySimple, inRingClosed, inRingOpen,
      onRingBoundary, onSegment, ringEdges, crossingCount, crossesRay,
      yStraddles, aboveLine, rayIntersectX, min_def, max_def,
      List.countP_cons, tieP0])
      (by norm_num [coveredBy, coveredBySimple, inRingClosed, inRingOpen,
      onRingBoundary, onSegment, ringEdges, crossingCount, crossesRay,
      yStraddles, aboveLine, rayIntersectX, min_def, max_def,
      List.countP_cons, tieP1])
      validOrder_tie_swapped).1,
    (equal_area_tie_linear_first_grid_sort_dependent tieP0 tieP1 ⟨3/2, 1⟩
      9 0 1 [1, 0]
      (by norm_num [multiArea, simpleArea, ringArea, ratAbs, shoelace, crossSum,
      edgeCross, tieP0, tieP1])
      (by norm_num [coveredBy, coveredBySimple, inRingClosed, inRingOpen,
      onRingBoundary, onSegment, ringEdges, crossingCount, crossesRay,
      yStraddles, aboveLine, rayIntersectX, min_def, max_def,
      List.countP_cons, tieP0])
      (by norm_num [coveredBy, coveredBySimple, inRingClosed, inRingOpen,
      onRingBoundary, onSegment, ringEdges, crossingCount, crossesRay,
      yStraddles, aboveLine, rayIntersectX, min_def, max_def,
      List.countP_cons, tieP1])
      validOrder_tie_swapped).2.2.2 rfl⟩

/-- Claim C4: on the spec's concrete scenario (A the 10 by 10 square with
external id 1, B the nested 2 by 2 square with external id 2), find on
(3,3) resolves to B (external id 2, slot 1), find on (1,1) resolves to A
(external id 1, slot 0), and find on (20,20) reports not found. -/
theorem concrete_scenario_find :
    multiArea polyA = 100 ∧ multiArea polyB = 4 ∧
    SimplePolygonDictionary.find [polyA, polyB] ⟨3, 3⟩ 0 = (true, 1) ∧
    SimplePolygonDictionary.find [polyA, polyB] ⟨1, 1⟩ 0 = (true, 0) ∧
    (SimplePolygonDictionary.find [polyA, polyB] ⟨20, 20⟩ 0).1 = false ∧
    externalFind [polyA, polyB] [1, 2] ⟨3, 3⟩ = some 2 ∧
    externalFind [polyA, polyB] [1, 2] ⟨1, 1⟩ = some 1 ∧
    externalFind [polyA, polyB] [1, 2] ⟨20, 20⟩ = none := by
  norm_num [externalFind, SimplePolygonDictionary.find, SimplePolygonDictionary.findLoop, areasOf,
    multiArea, simpleArea, ringArea, ratAbs, shoelace, crossSum, edgeCross,
    coveredBy, coveredBySimple, inRingClosed, inRingOpen, onRingBoundary,
    onSegment, ringEdges, crossingCount, crossesRay, yStraddles, aboveLine,
    rayIntersectX, covers, areaAt, min_def, max_def, List.countP_cons,
    List.range_succ, List.range_zero, List.getD_cons_zero, List.getD_cons_succ, polyA, polyB]

/-- Claim C5: the ordering the grid is initialized with is a permutation
of all slots sorted by ascending area, and every leaf candidate list is a
subsequence of that ordering, hence itself in ascending-area order — which
is what lets the grid query return the first containment match without
comparing areas. -/
theorem grid_order_invariants (polys : List MultiPolygon)
    (minInter maxDepth : Nat) :
    (buildOrder (areasOf polys)).Perm (List.range polys.length) ∧
    (buildOrder (areasOf polys)).Pairwise
      (fun i j => (areasOf polys).getD i 0 ≤ (areasOf polys).getD j 0) ∧
    ∀ ids ∈ leafLists (GridDict.root ⟨polys, minInter, maxDepth⟩),
      ids.Sublist (buildOrder (areasOf polys)) ∧
      ids.Pairwise
        (fun i j => (areasOf polys).getD i 0 ≤ (areasOf polys).getD j 0) := by
  have hlen : (areasOf polys).length = polys.length := by simp [areasOf]
  have hperm := buildOrder_perm (areasOf polys)
  rw [hlen] at hperm
  have hle : (buildOrder (areasOf polys)).Pairwise
      (fun i j => (areasOf polys).getD i 0 ≤ (areasOf polys).getD j 0) := by
    refine (buildOrder_pairwise (areasOf polys)).imp ?_
    intro i j hij
    rcases hij with h1 | ⟨h1, _⟩
    · exact le_of_lt h1
    · exact le_of_eq h1
  refine ⟨hperm, hle, ?_⟩
  intro ids hids
  obtain ⟨rl, hrl⟩ := leafLists_buildCell polys (buildOrder (areasOf polys))
    minInter maxDepth (rootRect polys) ids hids
  rw [hrl]
  exact ⟨List.filter_sublist _,
    List.Pairwise.sublist (List.filter_sublist _) hle⟩

theorem grid_order_invariants_witness :
    [1, 0].Sublist (buildOrder (areasOf [polyA, polyB])) ∧
    [1, 0].Pairwise
      (fun i j => (areasOf [polyA, polyB]).getD i 0 ≤
        (areasOf [polyA, polyB]).getD j 0) :=
  (grid_order_invariants [polyA, polyB] 0 0).2.2 [1, 0]
    (by norm_num [GridPolygonDictionary.find, GridDict.locate, GridDict.root, GridDict.order,
    buildCell, cellLocate, candidatesOf, scanCandidates, buildOrder,
    insertByArea, rootRect, bboxOfPoints, expandRect, allPoints, polyBbox,
    Rect.containsPt, Rect.intersects, leafLists, List.filter,
      SimplePolygonDictionary.find, SimplePolygonDictionary.findLoop, areasOf,
    multiArea, simpleArea, ringArea, ratAbs, shoelace, crossSum, edgeCross,
    coveredBy, coveredBySimple, inRingClosed, inRingOpen, onRingBoundary,
    onSegment, ringEdges, crossingCount, crossesRay, yStraddles, aboveLine,
    rayIntersectX, covers, areaAt, min_def, max_def, List.countP_cons,
    List.range_succ, List.range_zero, List.getD_cons_zero, List.getD_cons_succ, polyA, polyB])

/-- Claim C6: a query point outside the union bounding rectangle of all
polygons makes the grid locator return not found immediately: the cell
lookup already returns null, so no candidate list is scanned and no
containment test runs, and the in-out id is untouched. -/
theorem outside_root_not_found (d : GridDict) (p : Point) (id0 : Nat)
    (h : (rootRect d.polys).containsPt p.x p.y = false) :
    d.locate p.x p.y = none ∧
    GridPolygonDictionary.find d p id0 = (false, id0) := by
  have hne : ¬ (rootRect d.polys).containsPt p.x p.y = true := by
    rw [h]
    simp
  constructor
  · unfold GridDict.locate
    rw [if_neg hne]
  · unfold GridPolygonDictionary.find GridDict.locate
    rw [if_neg hne]

theorem outside_root_not_found_witness :
    GridDict.locate ⟨[polyA, polyB], 1, 2⟩ 20 20 = none ∧
    GridPolygonDictionary.find ⟨[polyA, polyB], 1, 2⟩ ⟨20, 20⟩ 3 =
      (false, 3) :=
  outside_root_not_found ⟨[polyA, polyB], 1, 2⟩ ⟨20, 20⟩ 3 (by decide)

/-- Claim C7: building either locator with zero polygons succeeds (both
constructions are total) and every query on the resulting index returns
not found with the in-out id untouched. -/
theorem empty_set_not_found (p : Point) (id0 minInter maxDepth : Nat) :
    SimplePolygonDictionary.find [] p id0 = (false, id0) ∧
    GridPolygonDictionary.find ⟨[], minInter, maxDepth⟩ p id0 =
      (false, id0) := by
  constructor
  · rfl
  · rcases gridFind_meets ⟨[], minInter, maxDepth⟩ p id0 with
      ⟨hres, _⟩ | ⟨_, hlt, _, _⟩
    · exact hres
    · exact absurd hlt (by simp)

/-- Claim C10: when either locator's find returns false, the in-out id
parameter is left with exactly the value the caller passed in; it is
written only when a containing polygon is found. -/
theorem find_not_found_id_unchanged (polys : List MultiPolygon)
    (minInter maxDepth : Nat) (p : Point) (id0 : Nat) :
    ((SimplePolygonDictionary.find polys p id0).1 = false →
      (SimplePolygonDictionary.find polys p id0).2 = id0) ∧
    ((GridPolygonDictionary.find ⟨polys, minInter, maxDepth⟩ p id0).1 =
        false →
      (GridPolygonDictionary.find ⟨polys, minInter, maxDepth⟩ p id0).2 =
        id0) := by
  constructor
  · intro hf
    rcases simpleFind_meets polys p id0 with ⟨hres, _⟩ | ⟨h1, _, _, _⟩
    · rw [hres]
    · rw [h1] at hf
      exact absurd hf (by simp)
  · intro hf
    rcases gridFind_meets ⟨polys, minInter, maxDepth⟩ p id0 with
      ⟨hres, _⟩ | ⟨h1, _, _, _⟩
    · rw [hres]
    · rw [h1] at hf
      exact absurd hf (by simp)

theorem find_not_found_id_unchanged_witness :
    (SimplePolygonDictionary.find [polyA, polyB] ⟨20, 20⟩ 42).2 = 42 ∧
    (GridPolygonDictionary.find ⟨[polyA, polyB], 1, 2⟩ ⟨20, 20⟩ 42).2 =
      42 :=
  ⟨(find_not_found_id_unchanged [polyA, polyB] 1 2 ⟨20, 20⟩ 42).1
      (by norm_num [SimplePolygonDictionary.find, SimplePolygonDictionary.findLoop, areasOf,
    multiArea, simpleArea, ringArea, ratAbs, shoelace, crossSum, edgeCross,
    coveredBy, coveredBySimple, inRingClosed, inRingOpen, onRingBoundary,
    onSegment, ringEdges, crossingCount, crossesRay, yStraddles, aboveLine,
    rayIntersectX, covers, areaAt, min_def, max_def, List.countP_cons,
    List.range_succ, List.range_zero, List.getD_cons_zero, List.getD_cons_succ, polyA, polyB]),
    (find_not_found_id_unchanged [polyA, polyB] 1 2 ⟨20, 20⟩ 42).2
      (by norm_num [GridPolygonDictionary.find, GridDict.locate, GridDict.root, GridDict.order,
    buildCell, cellLocate, candidatesOf, scanCandidates, buildOrder,
    insertByArea, rootRect, bboxOfPoints, expandRect, allPoints, polyBbox,
    Rect.containsPt, Rect.intersects, leafLists, List.filter,
        SimplePolygonDictionary.find, SimplePolygonDictionary.findLoop, areasOf,
    multiArea, simpleArea, ringArea, ratAbs, shoelace, crossSum, edgeCross,
    coveredBy, coveredBySimple, inRingClosed, inRingOpen, onRingBoundary,
    onSegment, ringEdges, crossingCount, crossesRay, yStraddles, aboveLine,
    rayIntersectX, covers, areaAt, min_def, max_def, List.countP_cons,
    List.range_succ, List.range_zero, List.getD_cons_zero, List.getD_cons_succ, polyA, polyB])⟩

/-! ### Configuration validation (createLayout) -/

/-- The fragment of the data-type language createLayout compares key types
against: Float64, arrays, two-element tuples, and a stand-in for any other
type. -/
inductive DataType where
  | float64
  | array (elem : DataType)
  | tuple2 (left : DataType) (right : DataType)
  | other (code : Nat)
deriving DecidableEq

/-- A dictionary attribute; only its type takes part in the layout
checks. -/
structure AttributeDesc where
  type : DataType
deriving DecidableEq

/-- The parts of the DictionaryStructure that createLayout inspects: the
optional composite key and the optional range columns. -/
structure DictionaryStructure where
  key : Option (List AttributeDesc)
  range_min : Option AttributeDesc
  range_max : Option AttributeDesc

/-- IPolygonDictionary::InputType. -/
inductive InputType where
  | MultiPolygon
  | SimplePolygon
deriving DecidableEq

/-- IPolygonDictionary::PointType. -/
inductive PointType where
  | Array
  | Tuple
deriving DecidableEq

/-- The distinct BAD_ARGUMENTS rejections createLayout can throw. -/
inductive LayoutError where
  | keyRequired
  | keyNotSingleAttribute
  | unsupportedKeyType
  | rangeDefined
deriving DecidableEq

/-- Array(Array(Array(Array(Float64)))): multi-polygon as nested point
arrays. -/
def multiPolygonArrayType : DataType :=
  DataType.array (.array (.array (.array .float64)))

/-- Array(Array(Array(Tuple(Float64, Float64)))): multi-polygon as nested
coordinate tuples. -/
def multiPolygonTupleType : DataType :=
  DataType.array (.array (.array (.tuple2 .float64 .float64)))

/-- Array(Array(Float64)): simple polygon as a point array. -/
def simplePolygonArrayType : DataType :=
  DataType.array (.array .float64)

/-- Array(Tuple(Float64, Float64)): simple polygon as coordinate
tuples. -/
def simplePolygonTupleType : DataType :=
  DataType.array (.tuple2 .float64 .float64)

/-- createLayout: reject a missing key, a key of more than one attribute,
a key type that is none of the four allowed polygon shapes, and, after the
key classification, defined range_min/range_max columns; otherwise
classify the input and construct the dictionary. -/
def createLayout (ds : DictionaryStructure) :
    Except LayoutError (InputType × PointType) :=
  match ds.key with
  | none => Except.error LayoutError.keyRequired
  | some attrs =>
    if attrs.length ≠ 1 then Except.error LayoutError.keyNotSingleAttribute
    else
      let keyType := (attrs.headD ⟨DataType.float64⟩).type
      let classified : Except LayoutError (InputType × PointType) :=
        if keyType = multiPolygonArrayType then
          Except.ok (InputType.MultiPolygon, PointType.Array)
        else if keyType = multiPolygonTupleType then
          Except.ok (InputType.MultiPolygon, PointType.Tuple)
        else if keyType = simplePolygonArrayType then
          Except.ok (InputType.SimplePolygon, PointType.Array)
        else if keyType = simplePolygonTupleType then
          Except.ok (InputType.SimplePolygon, PointType.Tuple)
        else Except.error LayoutError.unsupportedKeyType
      match classified with
      | Except.error e => Except.error e
      | Except.ok v =>
        if ds.range_min.isSome || ds.range_max.isSome then
          Except.error LayoutError.rangeDefined
        else Except.ok v

/-- Claim C8 counterexample: this configuration has a single key attribute
of one of the four allowed polygon shapes, so the claim asserts that
construction proceeds; but range_min is defined, and createLayout rejects
the build. -/
theorem createLayout_rejects_range_despite_valid_key :
    createLayout ⟨some [⟨multiPolygonArrayType⟩], some ⟨DataType.float64⟩,
        none⟩ =
      Except.error LayoutError.rangeDefined := by
  rfl

/-- Claim C8 (amended): construction proceeds exactly for a configuration
with a single-attribute key whose type is one of the four allowed polygon
shapes and with neither range_min nor range_max defined; in every other
case the whole build is rejected with a descriptive error and no
dictionary is constructed. -/
theorem createLayout_ok_iff (ds : DictionaryStructure) :
    (∃ v, createLayout ds = Except.ok v) ↔
      ∃ a, ds.key = some [a] ∧
        (a.type = multiPolygonArrayType ∨ a.type = multiPolygonTupleType ∨
          a.type = simplePolygonArrayType ∨
          a.type = simplePolygonTupleType) ∧
        ds.range_min = none ∧ ds.range_max = none := by
  obtain ⟨key, rmin, rmax⟩ := ds
  cases key with
  | none => simp [createLayout]
  | some attrs =>
    cases attrs with
    | nil => simp [createLayout]
    | cons a rest =>
      cases rest with
      | cons b rest2 => simp [createLayout]
      | nil =>
        rcases rmin with _ | rm <;> rcases rmax with _ | rm2 <;>
          by_cases h1 : a.type = multiPolygonArrayType <;>
          by_cases h2 : a.type = multiPolygonTupleType <;>
          by_cases h3 : a.type = simplePolygonArrayType <;>
          by_cases h4 : a.type = simplePolygonTupleType <;>
          simp_all [createLayout, multiPolygonArrayType,
            multiPolygonTupleType, simplePolygonArrayType,
            simplePolygonTupleType]

theorem createLayout_ok_iff_witness :
    ∃ v, createLayout ⟨some [⟨simplePolygonTupleType⟩], none, none⟩ =
      Except.ok v :=
  (createLayout_ok_iff ⟨some [⟨simplePolygonTupleType⟩], none, none⟩).2
    ⟨⟨simplePolygonTupleType⟩, rfl, Or.inr (Or.inr (Or.inr rfl)), rfl, rfl⟩

/-! ### Polygon equality function (polygonsEqualsCartesian) -/

/-- Modelled from the spec: the ring-closure half of the normalization
primitive correct — append the first point when the ring is not
explicitly closed. -/
def closeRing (r : Ring) : Ring :=
  match r with
  | [] => []
  | a :: _ => if r.getLast? = some a then r else r ++ [a]

/-- Modelled from the spec: the orientation half of correct for outer
rings — reverse a counter-clockwise ring (positive shoelace sum) to the
library's clockwise convention. -/
def orientOuter (r : Ring) : Ring :=
  if 0 < shoelace r then r.reverse else r

/-- Modelled from the spec: the orientation half of correct for hole
rings, which the library keeps in the opposite orientation to the outer
ring. -/
def orientHole (r : Ring) : Ring :=
  if shoelace r < 0 then r.reverse else r

/-- Modelled from the spec: the normalization primitive correct on one
simple polygon — fix closure, then orientation, of every ring. -/
def correctSimple (sp : SimplePolygon) : SimplePolygon :=
  ⟨orientOuter (closeRing sp.outer),
    sp.holes.map (fun h => orientHole (closeRing h))⟩

/-- Modelled from the spec: the normalization primitive correct on a
multi-polygon, applied to every part. -/
def correctMulti (mp : MultiPolygon) : MultiPolygon :=
  mp.map correctSimple

/-- Modelled from the spec: the external exact geometric equality
primitive equals, on the shared geometry model. -/
def equalsGeo (a b : MultiPolygon) : Bool :=
  decide (a = b)

/-- FunctionPolygonsEquals::getNumberOfArguments. -/
def FunctionPolygonsEquals.getNumberOfArguments : Nat := 2

/-- FunctionPolygonsEquals::isVariadic. -/
def FunctionPolygonsEquals.isVariadic : Bool := false

/-- FunctionPolygonsEquals::executeImpl: for each of the
input_rows_count rows, apply correct to both converted geometries and
push the equals result into the UInt8 result column as 1 or 0. -/
def FunctionPolygonsEquals.executeImpl (first second : List MultiPolygon)
    (input_rows_count : Nat) : List Nat :=
  (List.range input_rows_count).map (fun i =>
    if equalsGeo (correctMulti (first.getD i []))
        (correctMulti (second.getD i [])) then 1 else 0)

lemma edgeCross_antisymm (a b : Point) : edgeCross a b = -edgeCross b a := by
  unfold edgeCross
  ring

lemma crossSum_concat (y : Point) : ∀ (u : List Point) (x : Point),
    crossSum x (u ++ [y]) = crossSum x u + edgeCross (u.getLastD x) y := by
  intro u
  induction u with
  | nil =>
    intro x
    simp [crossSum]
  | cons b u ih =>
    intro x
    simp only [List.cons_append, crossSum, List.getLastD_cons,
      List.append_eq]
    rw [ih b]
    ring

lemma crossSum_reverse (x : Point) : ∀ (u : List Point) (y : Point),
    crossSum x (u.reverse ++ [y]) = -crossSum y (u ++ [x]) := by
  intro u
  induction u with
  | nil =>
    intro y
    simp only [List.reverse_nil, List.nil_append, crossSum]
    rw [edgeCross_antisymm]
    ring
  | cons b u ih =>
    intro y
    have lhs : crossSum x ((b :: u).reverse ++ [y]) =
        crossSum x (u.reverse ++ [b]) + edgeCross b y := by
      rw [List.reverse_cons]
      have h2 := crossSum_concat y (u.reverse ++ [b]) x
      rw [List.getLastD_concat] at h2
      exact h2
    have rhs : crossSum y ((b :: u) ++ [x]) =
        edgeCross y b + crossSum b (u ++ [x]) := rfl
    rw [lhs, ih b, rhs, edgeCross_antisymm y b]
    ring

/-- The shoelace sum is invariant under rotating the starting vertex of
the cyclic traversal. -/
lemma shoelace_rotate (a : Point) (as : List Point) :
    shoelace (as ++ [a]) = shoelace (a :: as) := by
  cases as with
  | nil => rfl
  | cons b as =>
    show crossSum b ((as ++ [a]) ++ [b]) = crossSum a ((b :: as) ++ [a])
    have h2 := crossSum_concat b (as ++ [a]) b
    rw [List.getLastD_concat] at h2
    rw [h2]
    have rhs : crossSum a ((b :: as) ++ [a]) =
        edgeCross a b + crossSum b (as ++ [a]) := rfl
    rw [rhs]
    ring

/-- Reversing a ring negates its shoelace sum. -/
lemma shoelace_reverse (r : Ring) : shoelace r.reverse = -shoelace r := by
  cases r with
  | nil => simp [shoelace]
  | cons a rest =>
    rw [List.reverse_cons, shoelace_rotate a rest.reverse]
    show crossSum a (rest.reverse ++ [a]) = -shoelace (a :: rest)
    rw [crossSum_reverse a rest a]
    rfl

lemma closeRing_cons (a : Point) (rest : List Point) :
    closeRing (a :: rest) =
      if (a :: rest).getLast? = some a then a :: rest
      else (a :: rest) ++ [a] := rfl

lemma closeRing_idem (r : Ring) : closeRing (closeRing r) = closeRing r := by
  cases r with
  | nil => rfl
  | cons a rest =>
    rw [closeRing_cons]
    by_cases h : (a :: rest).getLast? = some a
    · rw [if_pos h, closeRing_cons, if_pos h]
    · rw [if_neg h]
      have hcons : (a :: rest) ++ [a] = a :: (rest ++ [a]) := rfl
      have hl : (a :: (rest ++ [a])).getLast? = some a := by
        show ((a :: rest) ++ [a]).getLast? = some a
        exact List.getLast?_concat _
      rw [hcons, closeRing_cons, if_pos hl]

lemma closeRing_reverse_of_closed {r : Ring} (h : closeRing r = r) :
    closeRing r.reverse = r.reverse := by
  cases r with
  | nil => rfl
  | cons a rest =>
    have hlast : (a :: rest).getLast? = some a := by
      by_contra hno
      rw [closeRing_cons, if_neg hno] at h
      have := congrArg List.length h
      simp at this
    have hrev : (a :: rest).reverse.head? = some a := by
      rw [List.head?_reverse]
      exact hlast
    cases hc : (a :: rest).reverse with
    | nil =>
      have := congrArg List.length hc
      simp at this
    | cons c s =>
      have hca : c = a := by
        rw [hc] at hrev
        simpa using hrev
      subst hca
      rw [closeRing_cons]
      have hl : (c :: s).getLast? = some c := by
        rw [← hc, List.getLast?_reverse]
        rfl
      rw [if_pos hl]

lemma orient_close_outer_idem (r : Ring) :
    orientOuter (closeRing (orientOuter (closeRing r))) =
      orientOuter (closeRing r) := by
  have hX : closeRing (closeRing r) = closeRing r := closeRing_idem r
  set X := closeRing r with hXdef
  unfold orientOuter
  by_cases h : 0 < shoelace X
  · rw [if_pos h, closeRing_reverse_of_closed hX, shoelace_reverse,
      if_neg (by linarith)]
  · rw [if_neg h, hX, if_neg h]

lemma orient_close_hole_idem (r : Ring) :
    orientHole (closeRing (orientHole (closeRing r))) =
      orientHole (closeRing r) := by
  have hX : closeRing (closeRing r) = closeRing r := closeRing_idem r
  set X := closeRing r with hXdef
  unfold orientHole
  by_cases h : shoelace X < 0
  · rw [if_pos h, closeRing_reverse_of_closed hX, shoelace_reverse,
      if_neg (by linarith)]
  · rw [if_neg h, hX, if_neg h]

lemma correctSimple_idem (sp : SimplePolygon) :
    correctSimple (correctSimple sp) = correctSimple sp := by
  unfold correctSimple
  simp only [List.map_map]
  congr 1
  · exact orient_close_outer_idem sp.outer
  · apply List.map_congr_left
    intro h _
    simp only [Function.comp_apply]
    exact orient_close_hole_idem h

/-- The normalization correct is idempotent. -/
lemma correctMulti_idem (mp : MultiPolygon) :
    correctMulti (correctMulti mp) = correctMulti mp := by
  unfold correctMulti
  rw [List.map_map]
  apply List.map_congr_left
  intro sp _
  exact correctSimple_idem sp

/-- Claim C9: the polygon equality operation takes exactly two polygon
arguments (non-variadic), and for every input row applies the idempotent
normalization correct to both geometries before testing exact geometric
equality, producing 1 when the normalized geometries are equal and 0
otherwise. -/
theorem polygonsEquals_spec :
    FunctionPolygonsEquals.getNumberOfArguments = 2 ∧
    FunctionPolygonsEquals.isVariadic = false ∧
    (∀ g : MultiPolygon, correctMulti (correctMulti g) = correctMulti g) ∧
    (∀ (first second : List MultiPolygon) (n i : Nat), i < n →
      (FunctionPolygonsEquals.executeImpl first second n).getD i 0 =
        if equalsGeo (correctMulti (first.getD i []))
            (correctMulti (second.getD i [])) then 1 else 0) ∧
    (∀ (first second : List MultiPolygon) (n : Nat),
      (FunctionPolygonsEquals.executeImpl first second n).length = n) := by
  refine ⟨rfl, rfl, correctMulti_idem, ?_, ?_⟩
  · intro first second n i hi
    unfold FunctionPolygonsEquals.executeImpl
    rw [List.getD_eq_getElem _ _ (by simpa using hi)]
    simp
  · intro first second n
    simp [FunctionPolygonsEquals.executeImpl]

theorem polygonsEquals_spec_witness :
    (FunctionPolygonsEquals.executeImpl [polyA] [polyB] 1).getD 0 0 =
      if equalsGeo (correctMulti polyA) (correctMulti polyB) then 1
      else 0 :=
  polygonsEquals_spec.2.2.2.1 [polyA] [polyB] 1 0 (by norm_num)

end PolygonDict
